import Mathlib

/-!
Verification of `alembic/util/langhelpers.py`: the `Dispatcher` type-hierarchy
dispatch registry, the `translate` legacy-argument rewriter, the generated
method-proxy (facade) call behaviour of `ModuleClsProxy`, and the
class-attribute propagation hook of `_ModuleClsMeta`.

Python dictionaries are embedded as association lists with first-match lookup,
in-place update of an existing key, and append of a fresh key, which matches
the observable get/set/delete/update semantics of `dict` (every dictionary the
source builds has pairwise distinct keys).  Python values are a type parameter
`V`; class objects are identified by `TypeId` numbers and an explicit
most-derived-first ancestor list stands for `type(obj).__mro__`.
-/

set_option autoImplicit false

namespace Alembic

/-- Association list standing for a Python `dict` with key type `κ`. -/
abbrev PyDict (κ ν : Type) : Type := List (κ × ν)

/-- Keyword-argument dictionary: string keys. -/
abbrev Kw (ν : Type) : Type := PyDict String ν

/-- Lookup of a key, as Python `d[k]` / `k in d`: first matching entry. -/
def dictGet {κ ν : Type} [DecidableEq κ] : PyDict κ ν → κ → Option ν
  | [], _ => none
  | (k0, v0) :: d, k => if k = k0 then some v0 else dictGet d k

/-- Python `d[k] = v`: replace the value of an existing key in place,
otherwise append the new entry. -/
def dictSet {κ ν : Type} [DecidableEq κ] : PyDict κ ν → κ → ν → PyDict κ ν
  | [], k, v => [(k, v)]
  | (k0, v0) :: d, k, v => if k = k0 then (k0, v) :: d else (k0, v0) :: dictSet d k v

/-- Python `d.pop(k)` / `del d[k]` (the removal part): drop entries with key `k`. -/
def dictDel {κ ν : Type} [DecidableEq κ] : PyDict κ ν → κ → PyDict κ ν
  | [], _ => []
  | (k0, v0) :: d, k => if k = k0 then dictDel d k else (k0, v0) :: dictDel d k

/-- Python `d1.update(d2)`: set every entry of `d2` into `d1`, left to right. -/
def dictUpdate {κ ν : Type} [DecidableEq κ] : PyDict κ ν → PyDict κ ν → PyDict κ ν
  | d1, [] => d1
  | d1, (k, v) :: d2 => dictUpdate (dictSet d1 k v) d2

/-- The keys of the dictionary are pairwise distinct (true of every actual
Python `dict`). -/
abbrev NodupKeys {κ ν : Type} (d : PyDict κ ν) : Prop := (d.map Prod.fst).Nodup

/-- Python `set.add`: membership-based insertion, used for `attr_names`. -/
def setAdd (l : List String) (a : String) : List String :=
  if a ∈ l then l else l ++ [a]

/-! ### Dispatcher (`Dispatcher.__init__` / `dispatch_for` / `dispatch` / `branch`) -/

/-- A Python class object, identified by a number. -/
abbrev TypeId : Type := Nat

/-- A dispatch qualifier string. -/
abbrev Qualifier : Type := String

/-- A key of `Dispatcher._registry` as a Python value: the registry only ever
holds `(type, qualifier)` tuple keys, but the membership test in
`dispatch_for` compares a bare type against the keys, so both shapes are
represented. -/
inductive PyKey : Type where
  | ty (t : TypeId)
  | pair (t : TypeId) (q : Qualifier)
deriving DecidableEq

/-- `Dispatcher._registry`: a dict from keys to handlers `H`. -/
abbrev Registry (H : Type) : Type := PyDict PyKey H

/-- The inner `decorate` function of `Dispatcher.dispatch_for(target, qualifier)`:
`assert target not in self._registry` (a bare type compared against the
tuple keys, so the membership test holds exactly when some key equals the
bare type `target`), then `self._registry[(target, qualifier)] = fn`. -/
def dispatch_for {H : Type} (r : Registry H) (target : TypeId) (qualifier : Qualifier)
    (fn : H) : Except String (Registry H) :=
  if r.any (fun e => e.1 == PyKey.ty target) then
    Except.error "AssertionError"
  else
    Except.ok (dictSet r (PyKey.pair target qualifier) fn)

/-- `Dispatcher.dispatch(obj, qualifier)`: walk `type(obj).__mro__` (given as
the explicit list `mro`, most-derived class first); at each ancestor return
the `(ancestor, qualifier)` entry when `qualifier != 'default'` and it is
registered, else the `(ancestor, 'default')` entry when registered; when the
loop completes, raise `ValueError('no dispatch function for object: %s' % obj)`
(the `%s` interpolation of `obj` is the string `objRepr`). -/
def dispatch {H : Type} (r : Registry H) (mro : List TypeId) (objRepr : String)
    (qualifier : Qualifier) : Except String H :=
  match mro with
  | [] => Except.error ("no dispatch function for object: " ++ objRepr)
  | spcls :: rest =>
    match (if qualifier ≠ "default" then dictGet r (PyKey.pair spcls qualifier) else none) with
    | some fn => Except.ok fn
    | none =>
      match dictGet r (PyKey.pair spcls "default") with
      | some fn => Except.ok fn
      | none => dispatch r rest objRepr qualifier

/-- The per-ancestor match of the specified resolution order: the qualifier
entry when the qualifier is not `'default'` and is registered, else the
default entry. -/
def matchAt {H : Type} (r : Registry H) (qualifier : Qualifier) (a : TypeId) : Option H :=
  match (if qualifier ≠ "default" then dictGet r (PyKey.pair a qualifier) else none) with
  | some fn => some fn
  | none => dictGet r (PyKey.pair a "default")

/-- A heap of dispatcher registries; a `Dispatcher` object is an index into it,
so that sharing (or, after `branch`, the absence of sharing) of the mutable
`_registry` dict is explicit. -/
abbrev DispHeap (H : Type) : Type := List (Registry H)

/-- `Dispatcher.branch()`: allocate a fresh dispatcher whose registry is a
value copy (`d._registry.update(self._registry)`) of the current entries;
returns the new heap and the new dispatcher. -/
def branch {H : Type} (heap : DispHeap H) (d : Nat) : DispHeap H × Nat :=
  (heap ++ [heap.getD d []], heap.length)

/-- Registration `dispatch_for` performed on the dispatcher at index `d` of the
heap: only that registry cell is written. -/
def heapDispatchFor {H : Type} (heap : DispHeap H) (d : Nat) (target : TypeId)
    (qualifier : Qualifier) (fn : H) : Except String (DispHeap H) :=
  match dispatch_for (heap.getD d []) target qualifier fn with
  | Except.error e => Except.error e
  | Except.ok r => Except.ok (heap.set d r)

/-- Example registry of the spec: `(Base, 'default') -> H1`, `(Derived, 'x') -> H2`
with `Base = 0`, `Derived = 1`, `H1 = 1`, `H2 = 2`. -/
def exReg : Registry Nat := [(PyKey.pair 0 "default", 1), (PyKey.pair 1 "x", 2)]

/-- Ancestor chain of a `Derived` instance: `[Derived, Base]`. -/
def mroDerived : List TypeId := [1, 0]

/-- Ancestor chain of a `Base` instance: `[Base]`. -/
def mroBase : List TypeId := [0]

/-- Boolean prefix test on character lists. -/
def isPrefixChars : List Char → List Char → Bool
  | [], _ => true
  | _ :: _, [] => false
  | a :: as, b :: bs => a == b && isPrefixChars as bs

/-- Boolean contiguous-substring test on character lists. -/
def hasSub (sub : List Char) : List Char → Bool
  | [] => isPrefixChars sub []
  | c :: rest => isPrefixChars sub (c :: rest) || hasSub sub rest

/-! ### Argument specs and the `translate` legacy-keyword rewriter -/

/-- The result of `inspect.getargspec` on a method: positional parameter names
(`spec[0]`), presence of a `*args` parameter (`spec[1]`), presence of a
`**kwargs` parameter (`spec[2]`), and the default values of the trailing
parameters (`spec[3]`, empty when there are none). -/
structure PySpec (V : Type) where
  args : List String
  varargs : Bool
  keywords : Bool
  defaults : List V
deriving DecidableEq

/-- The spec mutation of `_create_method_proxy`: `if spec[0] and
spec[0][0] == 'self': spec[0].pop(0)`. -/
def popSelf {V : Type} (spec : PySpec V) : PySpec V :=
  match spec.args with
  | "self" :: rest => { spec with args := rest }
  | _ => spec

/-- The first loop of `translate`: `for oldname, newname in translations:
if oldname in kw: return_kw[newname] = kw.pop(oldname)`.  Returns the
accumulated `return_kw` and the remaining `kw`. -/
def translateKwLoop {V : Type} : List (String × String) → Kw V → Kw V → Kw V × Kw V
  | [], return_kw, kw => (return_kw, kw)
  | (oldname, newname) :: rest, return_kw, kw =>
    match dictGet kw oldname with
    | some v => translateKwLoop rest (dictSet return_kw newname v) (dictDel kw oldname)
    | none => translateKwLoop rest return_kw kw

/-- The keyword dictionary `translate` forwards: the loop result followed by
`return_kw.update(kw)`. -/
def finalKw {V : Type} (translations : List (String × String)) (kw : Kw V) : Kw V :=
  dictUpdate (translateKwLoop translations [] kw).1 (translateKwLoop translations [] kw).2

/-- `pos_only` of `translate`: `spec[0][:-len(spec[3])] if spec[3] else spec[0]`. -/
def posOnly {V : Type} (spec : PySpec V) : List String :=
  if spec.defaults.isEmpty then spec.args
  else spec.args.take (spec.args.length - spec.defaults.length)

/-- The second loop of `translate`: `for arg in pos_only: if arg not in
return_kw: return_args.append(args.pop(0))`, raising
`TypeError('missing required positional argument: %s' % arg)` when `args`
is exhausted, then `return_args.extend(args)`. -/
def popLoop {V : Type} : List String → Kw V → List V → List V → Except String (List V)
  | [], _, args, return_args => Except.ok (return_args ++ args)
  | arg :: rest, return_kw, args, return_args =>
    if (dictGet return_kw arg).isSome then popLoop rest return_kw args return_args
    else
      match args with
      | [] => Except.error ("missing required positional argument: " ++ arg)
      | a :: args2 => popLoop rest return_kw args2 (return_args ++ [a])

/-- `translate(spec, translations, args, kw)` of `_create_method_proxy`:
rewrite legacy keyword names, merge the untranslated keywords over the
rewritten ones, then consume one positional argument for every required
positional parameter not supplied by keyword. -/
def translate {V : Type} (spec : PySpec V) (translations : List (String × String))
    (args : List V) (kw : Kw V) : Except String (List V × Kw V) :=
  match popLoop (posOnly spec) (finalKw translations kw) args [] with
  | Except.error e => Except.error e
  | Except.ok return_args => Except.ok (return_args, finalKw translations kw)

/-- The required positional parameters that the forwarded keywords do not
supply; `translate` fills them from `args` in order. -/
def absentList {V : Type} (spec : PySpec V) (translations : List (String × String))
    (kw : Kw V) : List String :=
  (posOnly spec).filter (fun a => (dictGet (finalKw translations kw) a).isNone)

/-! ### Python call binding and the generated facade forwarding -/

/-- Split the keyword arguments of a call against the declared parameter
names: a keyword naming a parameter already assigned positionally is a
`got multiple values` TypeError; a keyword naming an unassigned parameter
binds it; a keyword naming no parameter goes to the `**kwargs` dict when the
callee declares one and is an `unexpected keyword argument` TypeError
otherwise.  This models the CPython argument-binding rules the generated
proxy code relies on. -/
def kwSplit {V : Type} (argNames posAssigned : List String) (hasKw : Bool) :
    Kw V → Except String (Kw V × Kw V)
  | [] => Except.ok ([], [])
  | (k, v) :: rest =>
    if k ∈ argNames then
      if k ∈ posAssigned then
        Except.error ("TypeError: got multiple values for keyword argument " ++ k)
      else
        match kwSplit argNames posAssigned hasKw rest with
        | Except.ok p => Except.ok ((k, v) :: p.1, p.2)
        | Except.error e => Except.error e
    else if hasKw then
      match kwSplit argNames posAssigned hasKw rest with
      | Except.ok p => Except.ok (p.1, (k, v) :: p.2)
      | Except.error e => Except.error e
    else Except.error ("TypeError: unexpected keyword argument " ++ k)

/-- The declared parameters paired with their default value, when any: the
trailing `len(defaults)` parameters carry the defaults. -/
def argSlots {V : Type} (spec : PySpec V) : List (String × Option V) :=
  (spec.args.take (spec.args.length - spec.defaults.length)).map (fun s => (s, none))
    ++ (spec.args.drop (spec.args.length - spec.defaults.length)).zip
        (spec.defaults.map some)

/-- Fill the parameter slots: positional arguments first, in order; a slot
beyond the positional arguments takes its keyword value when supplied, else
its default, and is a `missing required argument` TypeError otherwise. -/
def fillSlots {V : Type} (kwNamed : Kw V) :
    List (String × Option V) → List V → Except String (List V)
  | [], _ => Except.ok []
  | _ :: slots, v :: vs =>
    (fillSlots kwNamed slots vs).map (fun t => v :: t)
  | (nm, dflt) :: slots, [] =>
    match dictGet kwNamed nm with
    | some v => (fillSlots kwNamed slots []).map (fun t => v :: t)
    | none =>
      match dflt with
      | some v => (fillSlots kwNamed slots []).map (fun t => v :: t)
      | none => Except.error ("TypeError: missing required argument " ++ nm)

/-- CPython binding of a call `f(*args, **kw)` against the signature `spec`:
the values of the declared parameters in order, the extra positional
arguments captured by `*args`, and the extra keywords captured by
`**kwargs`. -/
def bindCall {V : Type} (spec : PySpec V) (args : List V) (kw : Kw V) :
    Except String (List V × List V × Kw V) :=
  if spec.args.length < args.length ∧ spec.varargs = false then
    Except.error "TypeError: too many positional arguments"
  else
    match kwSplit spec.args (spec.args.take (min args.length spec.args.length))
        spec.keywords kw with
    | Except.error e => Except.error e
    | Except.ok (kwNamed, extraKw) =>
      match fillSlots kwNamed (argSlots spec) args with
      | Except.error e => Except.error e
      | Except.ok named => Except.ok (named, args.drop spec.args.length, extraKw)

/-- The positional part of the `apply_kw` forwarding expression the proxy
generator emits (`formatargspec` renders the defaulted names as
`name=name`): the non-defaulted parameters are passed positionally, then the
captured `*args`. -/
def fwdPos {V : Type} (spec : PySpec V) (env : List V × List V × Kw V) : List V :=
  env.1.take (spec.args.length - spec.defaults.length) ++ env.2.1

/-- The keyword part of the `apply_kw` forwarding expression: the defaulted
parameters passed as `name=value` keywords, then the captured `**kwargs`. -/
def fwdKw {V : Type} (spec : PySpec V) (env : List V × List V × Kw V) : Kw V :=
  (spec.args.drop (spec.args.length - spec.defaults.length)).zip
      (env.1.drop (spec.args.length - spec.defaults.length))
    ++ env.2.2

/-! ### ModuleClsProxy: scopes, facades, install and remove, setattr hook -/

/-- A value stored in the `globals_` dict of a scope: the `_proxy` slot holds
`None` or the active instance (its attribute dict), and the exposed
attributes hold plain values. -/
inductive GVal (V : Type) : Type where
  | pyNone
  | pyInst (inst : Kw V)
  | pyVal (v : V)
deriving DecidableEq

/-- A facade produced by `_create_method_proxy`: the generated function
remembers the class name (for `_name_error`), the method name, the argspec
with `self` popped, and the legacy translations. -/
structure Facade (V : Type) where
  clsName : String
  meth : String
  spec : PySpec V
  translations : List (String × String)
deriving DecidableEq

/-- A registered namespace: `globals_` (where `_proxy` and the attribute
values are installed) and `locals_` (where the facade callables are
installed). -/
structure Scope (V : Type) where
  globals : PyDict String (GVal V)
  locals : PyDict String (Facade V)
deriving DecidableEq

/-- A member of the proxied class: a method (callable, with its argspec and
its `_legacy_translations`) or a plain attribute with its class-level
value. -/
inductive PyMember (V : Type) : Type where
  | meth (spec : PySpec V) (translations : List (String × String))
  | attrM (v : V)
deriving DecidableEq

/-- The proxied class: its name and its members (`dir(cls)` yields the member
names). -/
structure Cls (V : Type) where
  name : String
  members : PyDict String (PyMember V)
deriving DecidableEq

/-- The entry `cls._setups[cls]` for one class: the recorded non-callable
attribute names and the registered scopes. -/
structure ProxyState (V : Type) where
  attr_names : List String
  scopes : List (Scope V)
deriving DecidableEq

/-- Python `methname.startswith('_')` (written out on the character list). -/
def startsUnderscore (s : String) : Bool :=
  match s.data with
  | [] => false
  | c :: _ => c == '_'

/-- `_add_proxied_attribute(methname, globals_, locals_, attr_names)`: for a
public name, install a facade into `locals_` when the member is callable and
record the name in `attr_names` otherwise. -/
def addProxiedAttribute {V : Type} (cls : Cls V) (methname : String) (sc : Scope V)
    (attr_names : List String) : Scope V × List String :=
  if startsUnderscore methname then (sc, attr_names)
  else
    match dictGet cls.members methname with
    | some (PyMember.meth spec ts) =>
      ({ sc with
          locals := dictSet sc.locals methname
            (Facade.mk cls.name methname (popSelf spec) ts) },
        attr_names)
    | some (PyMember.attrM _) => (sc, setAdd attr_names methname)
    | none => (sc, attr_names)

/-- `_setup_proxy`: run `_add_proxied_attribute` over `dir(cls)`. -/
def setupProxyFold {V : Type} (cls : Cls V) :
    List String → Scope V → List String → Scope V × List String
  | [], sc, an => (sc, an)
  | nm :: rest, sc, an =>
    setupProxyFold cls rest (addProxiedAttribute cls nm sc an).1
      (addProxiedAttribute cls nm sc an).2

/-- `create_module_class_proxy(globals_, locals_)`: append the scope to the
module list of the class and set it up. -/
def create_module_class_proxy {V : Type} (cls : Cls V) (st : ProxyState V)
    (sc0 : Scope V) : ProxyState V :=
  ProxyState.mk (setupProxyFold cls (cls.members.map Prod.fst) sc0 st.attr_names).2
    (st.scopes ++ [(setupProxyFold cls (cls.members.map Prod.fst) sc0 st.attr_names).1])

/-- `_update_module_proxies(key)` over the registered scopes (the
`attr_names` set is shared; each scope receives the new binding). -/
def updateScopesFold {V : Type} (cls : Cls V) (key : String) :
    List (Scope V) → List String → List (Scope V) × List String
  | [], an => ([], an)
  | sc :: rest, an =>
    ((addProxiedAttribute cls key sc an).1
        :: (updateScopesFold cls key rest (addProxiedAttribute cls key sc an).2).1,
      (updateScopesFold cls key rest (addProxiedAttribute cls key sc an).2).2)

/-- `_ModuleClsMeta.__setattr__(cls, key, value)`: set the class attribute
and re-propagate the binding for `key` into every registered scope. -/
def clsSetattr {V : Type} (cls : Cls V) (key : String) (value : PyMember V)
    (st : ProxyState V) : Cls V × ProxyState V :=
  (Cls.mk cls.name (dictSet cls.members key value),
    ProxyState.mk
      (updateScopesFold (Cls.mk cls.name (dictSet cls.members key value)) key
        st.scopes st.attr_names).2
      (updateScopesFold (Cls.mk cls.name (dictSet cls.members key value)) key
        st.scopes st.attr_names).1)

/-- `getattr(instance, a)` for a recorded attribute: the instance dict value
when present, else the class attribute value. -/
def instGetAttr {V : Type} (cls : Cls V) (inst : Kw V) (a : String) : Option V :=
  match dictGet inst a with
  | some v => some v
  | none =>
    match dictGet cls.members a with
    | some (PyMember.attrM v) => some v
    | _ => none

/-- The attribute loop of `_install_proxy`:
`globals_[attr_name] = getattr(self, attr_name)`, an AttributeError when the
lookup fails. -/
def installAttrs {V : Type} (cls : Cls V) (inst : Kw V) :
    List String → PyDict String (GVal V) → Except String (PyDict String (GVal V))
  | [], g => Except.ok g
  | a :: rest, g =>
    match instGetAttr cls inst a with
    | some v => installAttrs cls inst rest (dictSet g a (GVal.pyVal v))
    | none => Except.error ("AttributeError: " ++ a)

/-- `_install_proxy` on one scope: `globals_['_proxy'] = self`, then the
attribute loop. -/
def installScope {V : Type} (cls : Cls V) (inst : Kw V) (attr_names : List String)
    (sc : Scope V) : Except String (Scope V) :=
  match installAttrs cls inst attr_names
      (dictSet sc.globals "_proxy" (GVal.pyInst inst)) with
  | Except.ok g => Except.ok (Scope.mk g sc.locals)
  | Except.error e => Except.error e

/-- Run a fallible action over a list, stopping at the first error. -/
def mapExcept {α β : Type} (f : α → Except String β) : List α → Except String (List β)
  | [] => Except.ok []
  | x :: xs =>
    match f x with
    | Except.ok y =>
      match mapExcept f xs with
      | Except.ok ys => Except.ok (y :: ys)
      | Except.error e => Except.error e
    | Except.error e => Except.error e

/-- `_install_proxy(self)`: install the instance into every registered
scope. -/
def install_proxy {V : Type} (cls : Cls V) (st : ProxyState V) (inst : Kw V) :
    Except String (ProxyState V) :=
  match mapExcept (installScope cls inst st.attr_names) st.scopes with
  | Except.ok scs => Except.ok (ProxyState.mk st.attr_names scs)
  | Except.error e => Except.error e

/-- The attribute loop of `_remove_proxy`: `del globals_[attr_name]`, a
KeyError when the name is absent. -/
def pyDelList {V : Type} :
    List String → PyDict String (GVal V) → Except String (PyDict String (GVal V))
  | [], g => Except.ok g
  | a :: rest, g =>
    if (dictGet g a).isSome then pyDelList rest (dictDel g a)
    else Except.error ("KeyError: " ++ a)

/-- `_remove_proxy` on one scope: `globals_['_proxy'] = None`, then delete
every recorded attribute name. -/
def removeScope {V : Type} (attr_names : List String) (sc : Scope V) :
    Except String (Scope V) :=
  match pyDelList attr_names (dictSet sc.globals "_proxy" GVal.pyNone) with
  | Except.ok g => Except.ok (Scope.mk g sc.locals)
  | Except.error e => Except.error e

/-- `_remove_proxy(self)`: clear the `_proxy` slot and the attribute bindings
of every registered scope. -/
def remove_proxy {V : Type} (st : ProxyState V) : Except String (ProxyState V) :=
  match mapExcept (removeScope st.attr_names) st.scopes with
  | Except.ok scs => Except.ok (ProxyState.mk st.attr_names scs)
  | Except.error e => Except.error e

/-- The `_name_error` message of the generated proxy, raised when `_proxy`
was never installed into the scope. -/
def nameErrMsg (clsName fname : String) : String :=
  "Can\x27t invoke function \x27" ++ fname
    ++ "\x27, as the proxy object has not yet been established for the Alembic \x27"
    ++ clsName ++ "\x27 class.  Try placing this code inside a callable."

/-- Observable outcome of calling a generated facade. -/
inductive FacadeResult (V : Type) : Type where
  | nameErr (msg : String)
  | typeErr (msg : String)
  | attrErrNone (meth : String)
  | invoke (inst : Kw V) (meth : String) (env : List V × List V × Kw V)
  | stuck
deriving DecidableEq

/-- Calling the generated facade `f` installed in scope `sc`.  Without
translations the generated function declares the parameters of the method
(minus `self`), so the call first binds them; with translations it declares
`*args, **kw` and first runs `_translate`.  Then the generated
`try`/`except NameError` block raises `_name_error` when `_proxy` was never
set; `return _proxy.name(...)` is an AttributeError on `None` after a
detach, and otherwise binds the forwarded arguments against the method,
`apply_kw` style on the plain path and `*args, **kw` on the translation
path.  (`stuck` marks the impossible case of `_proxy` holding a plain
value.) -/
def facadeCall {V : Type} (sc : Scope V) (f : Facade V) (args : List V) (kw : Kw V) :
    FacadeResult V :=
  match f.translations with
  | [] =>
    match bindCall f.spec args kw with
    | Except.error e => FacadeResult.typeErr e
    | Except.ok env =>
      match dictGet sc.globals "_proxy" with
      | none => FacadeResult.nameErr (nameErrMsg f.clsName f.meth)
      | some GVal.pyNone => FacadeResult.attrErrNone f.meth
      | some (GVal.pyInst inst) =>
        match bindCall f.spec (fwdPos f.spec env) (fwdKw f.spec env) with
        | Except.error e => FacadeResult.typeErr e
        | Except.ok env2 => FacadeResult.invoke inst f.meth env2
      | some (GVal.pyVal _) => FacadeResult.stuck
  | _ :: _ =>
    match translate f.spec f.translations args kw with
    | Except.error e => FacadeResult.typeErr e
    | Except.ok p =>
      match dictGet sc.globals "_proxy" with
      | none => FacadeResult.nameErr (nameErrMsg f.clsName f.meth)
      | some GVal.pyNone => FacadeResult.attrErrNone f.meth
      | some (GVal.pyInst inst) =>
        match bindCall f.spec p.1 p.2 with
        | Except.error e => FacadeResult.typeErr e
        | Except.ok env2 => FacadeResult.invoke inst f.meth env2
      | some (GVal.pyVal _) => FacadeResult.stuck

/-- Calling the method directly on the instance: bind the arguments against
the method signature (minus `self`). -/
def directCall {V : Type} (inst : Kw V) (meth : String) (spec : PySpec V)
    (args : List V) (kw : Kw V) : FacadeResult V :=
  match bindCall spec args kw with
  | Except.error e => FacadeResult.typeErr e
  | Except.ok env => FacadeResult.invoke inst meth env

/-- Does a facade result raise the proxy-not-established name error? -/
def isProxyNotEstablished {V : Type} : FacadeResult V → Bool
  | FacadeResult.nameErr _ => true
  | _ => false

/-- Concrete class for the detach scenario: one public method `m(self)`. -/
def cls4 : Cls Nat :=
  Cls.mk "MigrationContext" [("m", PyMember.meth (PySpec.mk ["self"] false false []) [])]

/-- The facade that registering `cls4` installs for `m`. -/
def facade4 : Facade Nat :=
  Facade.mk "MigrationContext" "m" (PySpec.mk [] false false []) []

/-- State after registering `cls4` into one fresh scope. -/
def st4a : ProxyState Nat :=
  create_module_class_proxy cls4 (ProxyState.mk [] []) (Scope.mk [] [])

/-- State after attaching an instance to `st4a`. -/
def st4b : ProxyState Nat :=
  ProxyState.mk [] [Scope.mk [("_proxy", GVal.pyInst [])] [("m", facade4)]]

/-- State after detaching again: the `_proxy` slot holds `None` and the
facade is still installed. -/
def st4c : ProxyState Nat :=
  ProxyState.mk [] [Scope.mk [("_proxy", GVal.pyNone)] [("m", facade4)]]

/-- Concrete class for the member-addition scenario. -/
def cls5 : Cls Nat := Cls.mk "Operations" []

/-- Two already registered scopes for `cls5`. -/
def st5 : ProxyState Nat := ProxyState.mk [] [Scope.mk [] [], Scope.mk [] []]

/-- Signature of the method `m(self, a, b=2, *c)` after the `self` pop:
two named parameters with one default, plus `*args`. -/
def spec9 : PySpec Nat := PySpec.mk ["a", "b"] true false [2]

/-- The facade `_create_method_proxy` builds for `m`. -/
def facade9 : Facade Nat := Facade.mk "Operations" "m" spec9 []

/-- The attached instance of the facade scenario. -/
def inst9 : Kw Nat := [("x", 1)]

/-- A scope with the instance attached and the facade installed. -/
def scope9 : Scope Nat := Scope.mk [("_proxy", GVal.pyInst inst9)] [("m", facade9)]

/-! #### Helper lemmas: `List.getD` over append and `set` -/

theorem getD_append_lt {α : Type} (l : List α) (x d : α) :
    ∀ i, i < l.length → (l ++ [x]).getD i d = l.getD i d := by
  induction l with
  | nil => intro i hi; exact absurd hi (Nat.not_lt_zero i)
  | cons a t ih =>
    intro i hi
    cases i with
    | zero => rfl
    | succ n => exact ih n (Nat.lt_of_succ_lt_succ hi)

theorem getD_append_len {α : Type} (l : List α) (x d : α) :
    (l ++ [x]).getD l.length d = x := by
  induction l with
  | nil => rfl
  | cons a t ih => exact ih

theorem getD_set_ne {α : Type} (l : List α) (x d : α) :
    ∀ i j, i ≠ j → (l.set i x).getD j d = l.getD j d := by
  induction l with
  | nil => intro i j _; cases i <;> rfl
  | cons a t ih =>
    intro i j hne
    cases i with
    | zero =>
      cases j with
      | zero => exact absurd rfl hne
      | succ m => rfl
    | succ n =>
      cases j with
      | zero => rfl
      | succ m => exact ih n m (fun hh => hne (by rw [hh]))

/-! #### Dispatcher lemmas -/

theorem dispatch_cons {H : Type} (r : Registry H) (c : TypeId) (rest : List TypeId)
    (o : String) (q : Qualifier) :
    dispatch r (c :: rest) o q =
      match matchAt r q c with
      | some fn => Except.ok fn
      | none => dispatch r rest o q := by
  cases hq : (if q ≠ "default" then dictGet r (PyKey.pair c q) else none) with
  | some fn => simp only [dispatch, matchAt, hq]
  | none =>
    cases hd : dictGet r (PyKey.pair c "default") with
    | some fn => simp only [dispatch, matchAt, hq, hd]
    | none => simp only [dispatch, matchAt, hq, hd]

theorem dispatch_first_match {H : Type} (r : Registry H) (o : String) (q : Qualifier)
    (h : H) : ∀ mro : List TypeId,
    dispatch r mro o q = Except.ok h ↔
      ∃ pre a post, mro = pre ++ a :: post ∧
        (∀ b ∈ pre, matchAt r q b = none) ∧ matchAt r q a = some h
  | [] => by
    constructor
    · intro hok; exact absurd hok (by simp [dispatch])
    · rintro ⟨pre, a, post, habs, -, -⟩
      cases pre <;> simp at habs
  | c :: rest => by
    cases hm : matchAt r q c with
    | some fn =>
      have hstep : dispatch r (c :: rest) o q = Except.ok fn := by
        rw [dispatch_cons, hm]
      rw [hstep]
      constructor
      · intro hok
        have hfh : fn = h := by injection hok
        exact ⟨[], c, rest, rfl, fun b hb => absurd hb (List.not_mem_nil b),
          by rw [hm, hfh]⟩
      · rintro ⟨pre, a, post, hdec, hpre, ha⟩
        cases pre with
        | nil =>
          have hca : c = a := by injection hdec
          rw [← hca, hm] at ha
          injection ha with hfh
          rw [hfh]
        | cons b pre2 =>
          have hcb : c = b := by injection hdec
          have hb := hpre b (by simp)
          rw [← hcb, hm] at hb
          cases hb
    | none =>
      have hstep : dispatch r (c :: rest) o q = dispatch r rest o q := by
        rw [dispatch_cons, hm]
      rw [hstep]
      rw [dispatch_first_match r o q h rest]
      constructor
      · rintro ⟨pre, a, post, hdec, hpre, ha⟩
        refine ⟨c :: pre, a, post, by rw [hdec]; rfl, ?_, ha⟩
        intro b hb
        cases hb with
        | head => exact hm
        | tail _ hb2 => exact hpre b hb2
      · rintro ⟨pre, a, post, hdec, hpre, ha⟩
        cases pre with
        | nil =>
          have hca : c = a := by injection hdec
          rw [← hca, hm] at ha
          cases ha
        | cons b pre2 =>
          have htl : rest = pre2 ++ a :: post := by injection hdec
          exact ⟨pre2, a, post, htl, fun b2 hb2 => hpre b2 (by simp [hb2]), ha⟩

/-! #### Claim theorems: Dispatcher -/

/-- C1: for every registry, ancestor chain (most-derived first) and qualifier,
`dispatch` returns handler `h` exactly when the first ancestor that matches --
preferring the `(ancestor, qualifier)` entry over the `(ancestor, 'default')`
entry at the same ancestor -- yields `h`; in particular, with
`(Base, 'default') -> 1` and `(Derived, 'x') -> 2` registered, resolving a
`Derived` instance with qualifier `x` gives 2, with qualifier `default`
gives 1, and resolving a `Base` instance with qualifier `x` gives 1. -/
theorem claim_dispatch_resolution (r : Registry Nat) (mro : List TypeId) (o : String)
    (q : Qualifier) (h : Nat) :
    (dispatch r mro o q = Except.ok h ↔
      ∃ pre a post, mro = pre ++ a :: post ∧
        (∀ b ∈ pre, matchAt r q b = none) ∧ matchAt r q a = some h) ∧
    dispatch exReg mroDerived "derivedInstance" "x" = Except.ok 2 ∧
    dispatch exReg mroDerived "derivedInstance" "default" = Except.ok 1 ∧
    dispatch exReg mroBase "baseInstance" "x" = Except.ok 1 :=
  ⟨dispatch_first_match r o q h mro, rfl, rfl, rfl⟩

/-- Witness for C1 at a concrete input: the `Derived`-instance resolution with
qualifier `x` picks the `(Derived, 'x')` handler. -/
theorem claim_dispatch_resolution_witness :
    dispatch exReg mroDerived "derivedInstance" "x" = Except.ok 2 :=
  (claim_dispatch_resolution exReg mroDerived "derivedInstance" "x" 2).2.1

/-- C2 (code bug): registering a second handler for the identical
`(type, qualifier)` key does not fail -- the `assert target not in
self._registry` guard compares the bare type against the tuple keys and never
fires -- and the second registration silently overwrites the first entry. -/
theorem claim_duplicate_registration_overwrites :
    dispatch_for ([] : Registry Nat) 7 "default" 1
        = Except.ok [(PyKey.pair 7 "default", 1)] ∧
    dispatch_for [(PyKey.pair 7 "default", (1 : Nat))] 7 "default" 2
        = Except.ok [(PyKey.pair 7 "default", 2)] ∧
    dictGet [(PyKey.pair 7 "default", (2 : Nat))] (PyKey.pair 7 "default") = some 2 :=
  ⟨rfl, rfl, rfl⟩

/-- C3: `branch` returns a dispatcher whose registry equals the source
registry at branch time; a registration performed on the branch leaves the
original registry -- and therefore every `dispatch` result on it, including
the unresolved-dispatch error -- unchanged, and a registration performed on
the original leaves the branch registry unchanged. -/
theorem claim_branch_isolated (heap : DispHeap Nat) (i : Nat) (hi : i < heap.length)
    (target : TypeId) (q : Qualifier) (fn : Nat) :
    ((branch heap i).1.getD (branch heap i).2 [] = heap.getD i []) ∧
    (∀ heap2, heapDispatchFor (branch heap i).1 (branch heap i).2 target q fn
        = Except.ok heap2 →
      heap2.getD i [] = heap.getD i [] ∧
      ∀ mro o q2, dispatch (heap2.getD i []) mro o q2
          = dispatch (heap.getD i []) mro o q2) ∧
    (∀ heap3, heapDispatchFor (branch heap i).1 i target q fn = Except.ok heap3 →
      heap3.getD (branch heap i).2 []
          = (branch heap i).1.getD (branch heap i).2 []) := by
  have hcopy : (branch heap i).1.getD (branch heap i).2 [] = heap.getD i [] :=
    getD_append_len heap (heap.getD i []) []
  refine ⟨hcopy, ?_, ?_⟩
  · intro heap2 hok
    have hne : heap.length ≠ i := fun hh => absurd hi (by rw [← hh]; exact Nat.lt_irrefl _)
    unfold heapDispatchFor at hok
    cases hdf : dispatch_for ((branch heap i).1.getD (branch heap i).2 []) target q fn with
    | error e => rw [hdf] at hok; cases hok
    | ok r =>
      rw [hdf] at hok
      injection hok with hh2
      have hgi : heap2.getD i [] = heap.getD i [] := by
        rw [← hh2]
        have h1 : ((branch heap i).1.set (branch heap i).2 r).getD i []
            = (branch heap i).1.getD i [] := getD_set_ne _ r [] heap.length i hne
        rw [h1]
        exact getD_append_lt heap (heap.getD i []) [] i hi
      exact ⟨hgi, fun mro o q2 => by rw [hgi]⟩
  · intro heap3 hok
    have hne : i ≠ heap.length := fun hh => absurd hi (by rw [hh]; exact Nat.lt_irrefl _)
    unfold heapDispatchFor at hok
    cases hdf : dispatch_for ((branch heap i).1.getD i []) target q fn with
    | error e => rw [hdf] at hok; cases hok
    | ok r =>
      rw [hdf] at hok
      injection hok with hh3
      rw [← hh3]
      exact getD_set_ne _ r [] i heap.length hne

/-- Witness for C3 at a concrete input: branching a one-dispatcher heap with an
empty registry copies the (empty) entry set. -/
theorem claim_branch_isolated_witness :
    (branch ([[]] : DispHeap Nat) 0).1.getD (branch ([[]] : DispHeap Nat) 0).2 []
      = ([[]] : DispHeap Nat).getD 0 [] :=
  (claim_branch_isolated [[]] 0 (by decide) 3 "q" 5).1

/-- C8 (amended): when no ancestor in the chain yields a match for the
requested qualifier (nor a default), `dispatch` fails with the
`no dispatch function for object` error interpolating the object itself;
it never falls back to another handler. -/
theorem claim_unresolved_dispatch_error (r : Registry Nat) (mro : List TypeId)
    (o : String) (q : Qualifier) (hnone : ∀ a ∈ mro, matchAt r q a = none) :
    dispatch r mro o q = Except.error ("no dispatch function for object: " ++ o) := by
  induction mro with
  | nil => rfl
  | cons c rest ih =>
    have hstep : dispatch r (c :: rest) o q = dispatch r rest o q := by
      rw [dispatch_cons, hnone c (by simp)]
    rw [hstep]
    exact ih (fun a ha => hnone a (by simp [ha]))

/-- Witness for C8 at a concrete input: an empty registry resolves nothing. -/
theorem claim_unresolved_dispatch_error_witness :
    dispatch ([] : Registry Nat) [0, 5] "obj" "x"
      = Except.error ("no dispatch function for object: " ++ "obj") :=
  claim_unresolved_dispatch_error [] [0, 5] "obj" "x" (by decide)

/-- Counterexample for C8 as stated: the unresolved-dispatch error message
contains neither the requested qualifier nor anything but the object
interpolation -- it is even independent of the qualifier -- so it does not
name the concrete type and the requested qualifier. -/
theorem claim_unresolved_message_counterexample :
    dispatch ([] : Registry Nat) [0] "someObj" "qualifierZ"
        = Except.error "no dispatch function for object: someObj" ∧
    hasSub "qualifierZ".data "no dispatch function for object: someObj".data = false ∧
    dispatch ([] : Registry Nat) [0] "someObj" "qualifierZ"
        = dispatch ([] : Registry Nat) [0] "someObj" "otherQual" :=
  ⟨rfl, by decide, rfl⟩

/-! #### Dictionary lemmas -/

theorem dictGet_set_self {κ ν : Type} [DecidableEq κ] (d : PyDict κ ν) (k : κ) (v : ν) :
    dictGet (dictSet d k v) k = some v := by
  induction d with
  | nil => simp [dictGet, dictSet]
  | cons e d ih =>
    rcases e with ⟨k0, v0⟩
    by_cases hk : k = k0
    · simp [dictSet, hk, dictGet]
    · simp [dictSet, hk, dictGet, ih]

theorem dictGet_set_ne {κ ν : Type} [DecidableEq κ] (d : PyDict κ ν) (k k2 : κ) (v : ν)
    (hne : k2 ≠ k) : dictGet (dictSet d k v) k2 = dictGet d k2 := by
  induction d with
  | nil => simp [dictGet, dictSet, hne]
  | cons e d ih =>
    rcases e with ⟨k0, v0⟩
    by_cases hk : k = k0
    · subst hk; simp [dictSet, dictGet, hne]
    · by_cases hk2 : k2 = k0
      · simp [dictSet, hk, dictGet, hk2]
      · simp [dictSet, hk, dictGet, hk2, ih]

theorem dictGet_del_self {κ ν : Type} [DecidableEq κ] (d : PyDict κ ν) (k : κ) :
    dictGet (dictDel d k) k = none := by
  induction d with
  | nil => simp [dictGet, dictDel]
  | cons e d ih =>
    rcases e with ⟨k0, v0⟩
    by_cases hk : k = k0
    · subst hk; simp [dictDel, ih]
    · simp [dictDel, hk, dictGet, ih]

theorem dictGet_del_ne {κ ν : Type} [DecidableEq κ] (d : PyDict κ ν) (k k2 : κ)
    (hne : k2 ≠ k) : dictGet (dictDel d k) k2 = dictGet d k2 := by
  induction d with
  | nil => simp [dictDel]
  | cons e d ih =>
    rcases e with ⟨k0, v0⟩
    by_cases hk : k = k0
    · subst hk; simp [dictDel, dictGet, hne, ih]
    · by_cases hk2 : k2 = k0
      · simp [dictDel, hk, dictGet, hk2]
      · simp [dictDel, hk, dictGet, hk2, ih]

theorem dictGet_eq_none_of_not_mem {κ ν : Type} [DecidableEq κ] (d : PyDict κ ν) (k : κ)
    (hk : k ∉ d.map Prod.fst) : dictGet d k = none := by
  induction d with
  | nil => rfl
  | cons e d ih =>
    rcases e with ⟨k0, v0⟩
    have h1 : k ≠ k0 := fun hh => hk (by simp [hh])
    have h2 : k ∉ d.map Prod.fst := fun hh => hk (by simp [hh])
    simp [dictGet, h1, ih h2]

theorem keys_del_sublist {κ ν : Type} [DecidableEq κ] (d : PyDict κ ν) (k : κ) :
    ((dictDel d k).map Prod.fst).Sublist (d.map Prod.fst) := by
  induction d with
  | nil => simp [dictDel]
  | cons e d ih =>
    rcases e with ⟨k0, v0⟩
    by_cases hk : k = k0
    · simp only [dictDel, if_pos hk, List.map]
      exact ih.trans (List.sublist_cons_self k0 (d.map Prod.fst))
    · simp only [dictDel, if_neg hk, List.map]
      exact ih.cons₂ k0

theorem nodupKeys_del {κ ν : Type} [DecidableEq κ] (d : PyDict κ ν) (k : κ)
    (hd : NodupKeys d) : NodupKeys (dictDel d k) :=
  List.Nodup.sublist (keys_del_sublist d k) hd

theorem mem_keys_set {κ ν : Type} [DecidableEq κ] (d : PyDict κ ν) (k k2 : κ) (v : ν) :
    k2 ∈ (dictSet d k v).map Prod.fst ↔ k2 ∈ d.map Prod.fst ∨ k2 = k := by
  induction d with
  | nil => simp [dictSet]
  | cons e d ih =>
    rcases e with ⟨k0, v0⟩
    by_cases hk : k = k0
    · subst hk
      simp only [dictSet, if_pos rfl, List.map, List.mem_cons]
      tauto
    · simp only [dictSet, if_neg hk, List.map, List.mem_cons, ih]
      tauto

theorem nodupKeys_set {κ ν : Type} [DecidableEq κ] (d : PyDict κ ν) (k : κ) (v : ν)
    (hd : NodupKeys d) : NodupKeys (dictSet d k v) := by
  induction d with
  | nil => simp [NodupKeys, dictSet]
  | cons e d ih =>
    rcases e with ⟨k0, v0⟩
    unfold NodupKeys at hd
    simp only [List.map, List.nodup_cons] at hd
    by_cases hk : k = k0
    · unfold NodupKeys
      simp only [dictSet, if_pos hk, List.map, List.nodup_cons]
      exact hd
    · unfold NodupKeys
      simp only [dictSet, if_neg hk, List.map, List.nodup_cons]
      refine ⟨?_, ih hd.2⟩
      intro hmem
      rcases (mem_keys_set d k k0 v).mp hmem with h | h
      · exact hd.1 h
      · exact hk h.symm

theorem dictGet_update {κ ν : Type} [DecidableEq κ] :
    ∀ (d2 d1 : PyDict κ ν) (k : κ), NodupKeys d2 →
      dictGet (dictUpdate d1 d2) k
        = match dictGet d2 k with
          | some v => some v
          | none => dictGet d1 k := by
  intro d2
  induction d2 with
  | nil => intro d1 k _; rfl
  | cons e d2 ih =>
    intro d1 k hnd
    rcases e with ⟨k0, v0⟩
    unfold NodupKeys at hnd
    simp only [List.map, List.nodup_cons] at hnd
    have hstep : dictUpdate d1 ((k0, v0) :: d2) = dictUpdate (dictSet d1 k0 v0) d2 := rfl
    rw [hstep, ih (dictSet d1 k0 v0) k hnd.2]
    by_cases hk : k = k0
    · subst hk
      have h2 : dictGet d2 k = none := dictGet_eq_none_of_not_mem d2 k hnd.1
      rw [h2]
      simp [dictGet, dictGet_set_self]
    · have hhead : dictGet ((k0, v0) :: d2) k = dictGet d2 k := by simp [dictGet, hk]
      rw [hhead]
      cases dictGet d2 k with
      | some v => rfl
      | none => exact dictGet_set_ne d1 k0 k v0 hk

/-! #### Lemmas about the keyword-rewriting loop of `translate` -/

theorem kwLoop_cons {V : Type} (o n : String) (ts : List (String × String))
    (rk kw : Kw V) :
    translateKwLoop ((o, n) :: ts) rk kw
      = match dictGet kw o with
        | some v => translateKwLoop ts (dictSet rk n v) (dictDel kw o)
        | none => translateKwLoop ts rk kw := rfl

theorem kwLoop_rem_not_old {V : Type} :
    ∀ (ts : List (String × String)) (rk kw : Kw V) (k : String),
      k ∉ ts.map Prod.fst →
      dictGet (translateKwLoop ts rk kw).2 k = dictGet kw k := by
  intro ts
  induction ts with
  | nil => intro rk kw k _; rfl
  | cons p ts ih =>
    intro rk kw k hk
    rcases p with ⟨o, n⟩
    have hko : k ≠ o := fun hh => hk (by simp [hh])
    have hk2 : k ∉ ts.map Prod.fst := fun hh => hk (by simp [hh])
    rw [kwLoop_cons]
    cases hv : dictGet kw o with
    | some v => rw [ih _ _ k hk2, dictGet_del_ne kw o k hko]
    | none => exact ih _ _ k hk2

theorem kwLoop_rem_none {V : Type} :
    ∀ (ts : List (String × String)) (rk kw : Kw V) (k : String),
      dictGet kw k = none → dictGet (translateKwLoop ts rk kw).2 k = none := by
  intro ts
  induction ts with
  | nil => intro rk kw k h; exact h
  | cons p ts ih =>
    intro rk kw k h
    rcases p with ⟨o, n⟩
    rw [kwLoop_cons]
    cases hv : dictGet kw o with
    | some v =>
      apply ih
      by_cases hko : k = o
      · subst hko; exact dictGet_del_self kw k
      · rw [dictGet_del_ne kw o k hko]; exact h
    | none => exact ih _ _ k h

theorem kwLoop_ret_not_new {V : Type} :
    ∀ (ts : List (String × String)) (rk kw : Kw V) (k : String),
      k ∉ ts.map Prod.snd →
      dictGet (translateKwLoop ts rk kw).1 k = dictGet rk k := by
  intro ts
  induction ts with
  | nil => intro rk kw k _; rfl
  | cons p ts ih =>
    intro rk kw k hk
    rcases p with ⟨o, n⟩
    have hkn : k ≠ n := fun hh => hk (by simp [hh])
    have hk2 : k ∉ ts.map Prod.snd := fun hh => hk (by simp [hh])
    rw [kwLoop_cons]
    cases hv : dictGet kw o with
    | some v => rw [ih _ _ k hk2, dictGet_set_ne rk n k v hkn]
    | none => exact ih _ _ k hk2

theorem kwLoop_fires {V : Type} :
    ∀ (ts : List (String × String)) (rk kw : Kw V) (old nw : String) (v : V),
      (ts.map Prod.fst).Nodup → (old, nw) ∈ ts → dictGet kw old = some v →
      (∀ p ∈ ts, p.2 = nw → p = (old, nw)) →
      dictGet (translateKwLoop ts rk kw).1 nw = some v := by
  intro ts
  induction ts with
  | nil => intro rk kw old nw v _ hmem _ _; cases hmem
  | cons p ts ih =>
    intro rk kw old nw v hnd hmem hv huniq
    rcases p with ⟨o, n⟩
    simp only [List.map, List.nodup_cons] at hnd
    cases hmem with
    | head =>
      rw [kwLoop_cons, hv]
      have hnot : nw ∉ ts.map Prod.snd := by
        intro hmem2
        rcases List.mem_map.mp hmem2 with ⟨q, hq, hq2⟩
        have hq3 := huniq q (List.mem_cons_of_mem _ hq) hq2
        rw [hq3] at hq
        exact hnd.1 (List.mem_map.mpr ⟨(old, nw), hq, rfl⟩)
      rw [kwLoop_ret_not_new ts _ _ nw hnot]
      exact dictGet_set_self rk nw v
    | tail _ hmem2 =>
      have holdmem : old ∈ ts.map Prod.fst := List.mem_map.mpr ⟨(old, nw), hmem2, rfl⟩
      have ho : o ≠ old := fun hh => hnd.1 (hh ▸ holdmem)
      have huniq2 : ∀ p ∈ ts, p.2 = nw → p = (old, nw) :=
        fun q hq hq2 => huniq q (List.mem_cons_of_mem _ hq) hq2
      rw [kwLoop_cons]
      cases hw : dictGet kw o with
      | some w =>
        apply ih _ _ old nw v hnd.2 hmem2 _ huniq2
        rw [dictGet_del_ne kw o old (Ne.symm ho)]
        exact hv
      | none => exact ih _ _ old nw v hnd.2 hmem2 hv huniq2

theorem kwLoop_pops_old {V : Type} :
    ∀ (ts : List (String × String)) (rk kw : Kw V) (old : String) (v : V),
      old ∈ ts.map Prod.fst → dictGet kw old = some v →
      dictGet (translateKwLoop ts rk kw).2 old = none := by
  intro ts
  induction ts with
  | nil => intro rk kw old v hmem _; simp at hmem
  | cons p ts ih =>
    intro rk kw old v hmem hv
    rcases p with ⟨o, n⟩
    rw [kwLoop_cons]
    by_cases ho : o = old
    · subst ho
      rw [hv]
      exact kwLoop_rem_none ts _ _ o (dictGet_del_self kw o)
    · have hmem2 : old ∈ ts.map Prod.fst := by
        rw [List.map_cons] at hmem
        rcases List.mem_cons.mp hmem with h | h
        · exact absurd h.symm ho
        · exact h
      cases hw : dictGet kw o with
      | some w =>
        apply ih _ _ old v hmem2
        rw [dictGet_del_ne kw o old (fun hh => ho hh.symm)]
        exact hv
      | none => exact ih _ _ old v hmem2 hv

theorem kwLoop_rem_nodup {V : Type} :
    ∀ (ts : List (String × String)) (rk kw : Kw V),
      NodupKeys kw → NodupKeys (translateKwLoop ts rk kw).2 := by
  intro ts
  induction ts with
  | nil => intro rk kw h; exact h
  | cons p ts ih =>
    intro rk kw h
    rcases p with ⟨o, n⟩
    rw [kwLoop_cons]
    cases hv : dictGet kw o with
    | some v => exact ih _ _ (nodupKeys_del kw o h)
    | none => exact ih _ _ h

theorem popLoop_spec {V : Type} :
    ∀ (ps : List String) (rkw : Kw V) (args acc : List V),
      (args.length < (ps.filter (fun a2 => (dictGet rkw a2).isNone)).length →
        popLoop ps rkw args acc
          = Except.error ("missing required positional argument: "
              ++ (ps.filter (fun a2 => (dictGet rkw a2).isNone)).getD args.length "")) ∧
      ((ps.filter (fun a2 => (dictGet rkw a2).isNone)).length ≤ args.length →
        popLoop ps rkw args acc = Except.ok (acc ++ args)) := by
  intro ps
  induction ps with
  | nil =>
    intro rkw args acc
    constructor
    · intro hlt; simp at hlt
    · intro _; rfl
  | cons arg ps ih =>
    intro rkw args acc
    cases hv : dictGet rkw arg with
    | some w =>
      have hstep : popLoop (arg :: ps) rkw args acc = popLoop ps rkw args acc := by
        simp [popLoop, hv]
      have hfil : (arg :: ps).filter (fun a2 => (dictGet rkw a2).isNone)
          = ps.filter (fun a2 => (dictGet rkw a2).isNone) := by
        simp [List.filter_cons, hv]
      rw [hstep, hfil]
      exact ih rkw args acc
    | none =>
      have hfil : (arg :: ps).filter (fun a2 => (dictGet rkw a2).isNone)
          = arg :: ps.filter (fun a2 => (dictGet rkw a2).isNone) := by
        simp [List.filter_cons, hv]
      rw [hfil]
      cases args with
      | nil =>
        constructor
        · intro hlt
          have hstep : popLoop (arg :: ps) rkw ([] : List V) acc
              = Except.error ("missing required positional argument: " ++ arg) := by
            simp [popLoop, hv]
          rw [hstep]
          rfl
        · intro hle
          exact absurd hle (by simp)
      | cons a args2 =>
        have hstep : popLoop (arg :: ps) rkw (a :: args2) acc
            = popLoop ps rkw args2 (acc ++ [a]) := by
          simp [popLoop, hv]
        rw [hstep]
        constructor
        · intro hlt
          have hlt2 : args2.length
              < (ps.filter (fun a2 => (dictGet rkw a2).isNone)).length := by
            simpa using hlt
          rw [(ih rkw args2 (acc ++ [a])).1 hlt2]
          rfl
        · intro hle
          have hle2 : (ps.filter (fun a2 => (dictGet rkw a2).isNone)).length
              ≤ args2.length := by
            simpa using hle
          rw [(ih rkw args2 (acc ++ [a])).2 hle2]
          simp

/-! #### Claim theorems: `translate` -/

/-- C6 (amended): for a rule `(old, nw)` of a translation table whose old
names are distinct, whose rules do not target `old`, and in which only that
rule targets `nw`, if the call supplies `old` as a keyword and does not also
supply `nw`, the forwarded keywords bind `nw` to the supplied value and no
longer contain `old`; keywords named by no rule (neither as an old nor as a
new name) pass through unchanged. -/
theorem claim_translate_moves_legacy_kw {V : Type} (ts : List (String × String))
    (kw : Kw V) (old nw : String) (v : V)
    (hkw : NodupKeys kw)
    (holds : (ts.map Prod.fst).Nodup)
    (hmem : (old, nw) ∈ ts)
    (hv : dictGet kw old = some v)
    (hnw : dictGet kw nw = none)
    (huniq : ∀ p ∈ ts, p.2 = nw → p = (old, nw))
    (hnottgt : ∀ p ∈ ts, p.2 ≠ old) :
    dictGet (finalKw ts kw) nw = some v ∧
    dictGet (finalKw ts kw) old = none ∧
    ∀ k, k ∉ ts.map Prod.fst → k ∉ ts.map Prod.snd →
      dictGet (finalKw ts kw) k = dictGet kw k := by
  have hnodup2 : NodupKeys (translateKwLoop ts ([] : Kw V) kw).2 :=
    kwLoop_rem_nodup ts [] kw hkw
  have hupd := fun k => dictGet_update (translateKwLoop ts ([] : Kw V) kw).2
    (translateKwLoop ts ([] : Kw V) kw).1 k hnodup2
  refine ⟨?_, ?_, ?_⟩
  · have h1 : dictGet (translateKwLoop ts ([] : Kw V) kw).2 nw = none :=
      kwLoop_rem_none ts [] kw nw hnw
    have h2 : dictGet (translateKwLoop ts ([] : Kw V) kw).1 nw = some v :=
      kwLoop_fires ts [] kw old nw v holds hmem hv huniq
    unfold finalKw
    rw [hupd nw, h1, h2]
  · have h1 : dictGet (translateKwLoop ts ([] : Kw V) kw).2 old = none :=
      kwLoop_pops_old ts [] kw old v (List.mem_map.mpr ⟨(old, nw), hmem, rfl⟩) hv
    have h2 : dictGet (translateKwLoop ts ([] : Kw V) kw).1 old
        = dictGet ([] : Kw V) old := by
      apply kwLoop_ret_not_new
      intro hmem2
      rcases List.mem_map.mp hmem2 with ⟨q, hq, hq2⟩
      exact hnottgt q hq hq2
    unfold finalKw
    rw [hupd old, h1, h2]
    rfl
  · intro k hk1 hk2
    have h1 : dictGet (translateKwLoop ts ([] : Kw V) kw).2 k = dictGet kw k :=
      kwLoop_rem_not_old ts [] kw k hk1
    have h2 : dictGet (translateKwLoop ts ([] : Kw V) kw).1 k
        = dictGet ([] : Kw V) k := kwLoop_ret_not_new ts [] kw k hk2
    unfold finalKw
    rw [hupd k, h1]
    cases hkw2 : dictGet kw k with
    | some w => rfl
    | none => rw [h2]; rfl

/-- Witness for C6 (amended) at a concrete input: rule old -> new with only
`old=5` supplied forwards `new=5`. -/
theorem claim_translate_moves_legacy_kw_witness :
    dictGet (finalKw [("old", "new")] [("old", (5 : Nat))]) "new" = some 5 :=
  (claim_translate_moves_legacy_kw [("old", "new")] [("old", 5)] "old" "new" 5
    (by decide) (by decide) (by decide) (by decide) (by decide)
    (by decide) (by decide)).1

/-- Counterexample for C6 as stated: with rule old -> new and a call that
supplies both `old=5` and `new=7`, the forwarded keywords bind `new` to 7,
the value supplied under the new name, not to the value 5 supplied under the
old name. -/
theorem claim_translate_moves_legacy_counterexample :
    translate (PySpec.mk [] false false []) [("old", "new")] ([] : List Nat)
        [("old", 5), ("new", 7)]
      = Except.ok ([], [("new", 7)]) ∧
    dictGet [("new", (7 : Nat))] "new" ≠ some 5 :=
  ⟨rfl, by decide⟩

/-- C7: after legacy rewriting, if the positional arguments cannot cover the
required (non-defaulted) parameters that the forwarded keywords do not
supply, `translate` fails with the `missing required positional argument`
error naming the first such parameter that cannot be filled; otherwise it
succeeds and forwards the positional arguments unchanged (the consumed ones
followed by the leftovers). -/
theorem claim_translate_missing_required {V : Type} (spec : PySpec V)
    (ts : List (String × String)) (args : List V) (kw : Kw V) :
    (args.length < (absentList spec ts kw).length →
      translate spec ts args kw
        = Except.error ("missing required positional argument: "
            ++ (absentList spec ts kw).getD args.length "")) ∧
    ((absentList spec ts kw).length ≤ args.length →
      translate spec ts args kw = Except.ok (args, finalKw ts kw)) := by
  have hs := popLoop_spec (posOnly spec) (finalKw ts kw) args []
  constructor
  · intro hlt
    unfold absentList at hlt
    unfold translate
    rw [hs.1 hlt]
    rfl
  · intro hle
    unfold absentList at hle
    unfold translate
    rw [hs.2 hle]
    rfl

/-- Witness for C7 at a concrete input: two required parameters, no arguments
at all: the error names the first parameter `a`. -/
theorem claim_translate_missing_required_witness :
    translate (PySpec.mk ["a", "b"] false false []) [] ([] : List Nat) []
      = Except.error ("missing required positional argument: "
          ++ (absentList (PySpec.mk ["a", "b"] false false ([] : List Nat)) [] []).getD 0 "") :=
  (claim_translate_missing_required (PySpec.mk ["a", "b"] false false []) [] [] []).1
    (by decide)

/-- C10: when a call supplies both the old and the new name of a rule, the
merge `return_kw.update(kw)` lets the value supplied under the new name win,
the old name is dropped, and no error is raised (under the same rule-table
hygiene as C6, plus the new name not being an old name of another rule). -/
theorem claim_translate_duplicate_new_wins {V : Type} (ts : List (String × String))
    (kw : Kw V) (old nw : String) (v w : V)
    (hkw : NodupKeys kw)
    (hmem : (old, nw) ∈ ts)
    (hv : dictGet kw old = some v)
    (hw : dictGet kw nw = some w)
    (hnwold : nw ∉ ts.map Prod.fst)
    (hnottgt : ∀ p ∈ ts, p.2 ≠ old) :
    dictGet (finalKw ts kw) nw = some w ∧
    dictGet (finalKw ts kw) old = none ∧
    ∀ args : List V, translate (PySpec.mk [] false false []) ts args kw
        = Except.ok (args, finalKw ts kw) := by
  have hnodup2 : NodupKeys (translateKwLoop ts ([] : Kw V) kw).2 :=
    kwLoop_rem_nodup ts [] kw hkw
  have hupd := fun k => dictGet_update (translateKwLoop ts ([] : Kw V) kw).2
    (translateKwLoop ts ([] : Kw V) kw).1 k hnodup2
  refine ⟨?_, ?_, ?_⟩
  · have h1 : dictGet (translateKwLoop ts ([] : Kw V) kw).2 nw = dictGet kw nw :=
      kwLoop_rem_not_old ts [] kw nw hnwold
    unfold finalKw
    rw [hupd nw, h1, hw]
  · have h1 : dictGet (translateKwLoop ts ([] : Kw V) kw).2 old = none :=
      kwLoop_pops_old ts [] kw old v (List.mem_map.mpr ⟨(old, nw), hmem, rfl⟩) hv
    have h2 : dictGet (translateKwLoop ts ([] : Kw V) kw).1 old
        = dictGet ([] : Kw V) old := by
      apply kwLoop_ret_not_new
      intro hmem2
      rcases List.mem_map.mp hmem2 with ⟨q, hq, hq2⟩
      exact hnottgt q hq hq2
    unfold finalKw
    rw [hupd old, h1, h2]
    rfl
  · intro args
    unfold translate
    rfl

/-- Witness for C10 at a concrete input: `old=5, new=7` with rule old -> new
forwards `new=7`. -/
theorem claim_translate_duplicate_new_wins_witness :
    dictGet (finalKw [("old", "new")] [("old", (5 : Nat)), ("new", 7)]) "new" = some 7 :=
  (claim_translate_duplicate_new_wins [("old", "new")] [("old", 5), ("new", 7)]
    "old" "new" 5 7 (by decide) (by decide) (by decide) (by decide) (by decide)
    (by decide)).1

/-! #### Lemmas about install, remove and the facade call -/

theorem pyDelList_spec {V : Type} :
    ∀ (an : List String) (g g2 : PyDict String (GVal V)),
      pyDelList an g = Except.ok g2 →
      (∀ a ∈ an, dictGet g2 a = none) ∧
      (∀ k, k ∉ an → dictGet g2 k = dictGet g k) := by
  intro an
  induction an with
  | nil =>
    intro g g2 h
    injection h with h1
    subst h1
    exact ⟨fun a ha => absurd ha (List.not_mem_nil a), fun k _ => rfl⟩
  | cons a an ih =>
    intro g g2 h
    unfold pyDelList at h
    by_cases hs : (dictGet g a).isSome
    · rw [if_pos hs] at h
      obtain ⟨h1, h2⟩ := ih (dictDel g a) g2 h
      constructor
      · intro b hb
        rcases List.mem_cons.mp hb with hba | hbtail
        · subst hba
          by_cases hbtl : b ∈ an
          · exact h1 b hbtl
          · rw [h2 b hbtl]
            exact dictGet_del_self g b
        · exact h1 b hbtail
      · intro k hk
        have hk1 : k ≠ a := fun hh => hk (by simp [hh])
        have hk2 : k ∉ an := fun hh => hk (by simp [hh])
        rw [h2 k hk2]
        exact dictGet_del_ne g a k hk1
    · rw [if_neg hs] at h
      cases h

theorem mapExcept_mem {α β : Type} (f : α → Except String β) :
    ∀ (l : List α) (l2 : List β), mapExcept f l = Except.ok l2 →
      ∀ b ∈ l2, ∃ a ∈ l, f a = Except.ok b := by
  intro l
  induction l with
  | nil =>
    intro l2 h
    injection h with h1
    subst h1
    intro b hb
    exact absurd hb (List.not_mem_nil b)
  | cons x xs ih =>
    intro l2 h
    unfold mapExcept at h
    cases hf : f x with
    | error e => rw [hf] at h; cases h
    | ok y =>
      rw [hf] at h
      cases hm : mapExcept f xs with
      | error e => rw [hm] at h; cases h
      | ok ys =>
        rw [hm] at h
        injection h with h1
        subst h1
        intro b hb
        rcases List.mem_cons.mp hb with hb1 | hb2
        · exact ⟨x, List.mem_cons_self x xs, by rw [hf, hb1]⟩
        · obtain ⟨a, ha, hfa⟩ := ih ys hm b hb2
          exact ⟨a, List.mem_cons_of_mem x ha, hfa⟩

theorem installAttrs_unchanged {V : Type} (cls : Cls V) (inst : Kw V) :
    ∀ (an : List String) (g g2 : PyDict String (GVal V)),
      installAttrs cls inst an g = Except.ok g2 →
      ∀ a, a ∉ an → dictGet g2 a = dictGet g a := by
  intro an
  induction an with
  | nil => intro g g2 h a _; injection h with h1; subst h1; rfl
  | cons b an ih =>
    intro g g2 h a ha
    unfold installAttrs at h
    cases hv : instGetAttr cls inst b with
    | none => rw [hv] at h; cases h
    | some w =>
      rw [hv] at h
      have h1 : a ∉ an := fun hh => ha (List.mem_cons_of_mem b hh)
      have h2 : a ≠ b := fun hh => ha (by rw [hh]; exact List.mem_cons_self b an)
      rw [ih _ g2 h a h1]
      exact dictGet_set_ne g b a (GVal.pyVal w) h2

theorem installAttrs_mem {V : Type} (cls : Cls V) (inst : Kw V) :
    ∀ (an : List String) (g g2 : PyDict String (GVal V)),
      installAttrs cls inst an g = Except.ok g2 →
      ∀ a ∈ an, ∃ w, dictGet g2 a = some (GVal.pyVal w) := by
  intro an
  induction an with
  | nil => intro g g2 h a ha; exact absurd ha (List.not_mem_nil a)
  | cons b an ih =>
    intro g g2 h a ha
    unfold installAttrs at h
    cases hv : instGetAttr cls inst b with
    | none => rw [hv] at h; cases h
    | some w =>
      rw [hv] at h
      rcases List.mem_cons.mp ha with hab | hatail
      · subst hab
        by_cases hmem : a ∈ an
        · exact ih _ g2 h a hmem
        · refine ⟨w, ?_⟩
          rw [installAttrs_unchanged cls inst an _ g2 h a hmem]
          exact dictGet_set_self g a (GVal.pyVal w)
      · exact ih _ g2 h a hatail

theorem facade_on_none {V : Type} (sc : Scope V) (f : Facade V) (args : List V)
    (kw : Kw V) (hnone : dictGet sc.globals "_proxy" = some GVal.pyNone) :
    isProxyNotEstablished (facadeCall sc f args kw) = false ∧
    (facadeCall sc f args kw = FacadeResult.attrErrNone f.meth ∨
      ∃ e, facadeCall sc f args kw = FacadeResult.typeErr e) := by
  unfold facadeCall
  cases ht : f.translations with
  | nil =>
    cases hb : bindCall f.spec args kw with
    | error e => exact ⟨rfl, Or.inr ⟨e, rfl⟩⟩
    | ok env =>
      rw [hnone]
      exact ⟨rfl, Or.inl rfl⟩
  | cons p ts =>
    cases hb : translate f.spec (p :: ts) args kw with
    | error e => exact ⟨rfl, Or.inr ⟨e, rfl⟩⟩
    | ok q =>
      rw [hnone]
      exact ⟨rfl, Or.inl rfl⟩

/-! #### Claim theorems: ModuleClsProxy detach (C4) -/

/-- C4 (amended): after `_install_proxy` and `_remove_proxy`, every
registered scope has its `_proxy` slot overwritten with `None` and every
recorded attribute binding deleted from its `globals_`; a facade called
afterwards fails -- with an AttributeError on the `None` slot (or an
argument TypeError raised before the slot is read) -- and never with the
proxy-not-established name error, which is reserved for a scope where
`_proxy` was never set. -/
theorem claim_detach_clears_scope {V : Type} (cls : Cls V)
    (st st1 st2 : ProxyState V) (inst : Kw V)
    (hp : "_proxy" ∉ st.attr_names)
    (hinst : install_proxy cls st inst = Except.ok st1)
    (hrem : remove_proxy st1 = Except.ok st2) :
    st2.attr_names = st.attr_names ∧
    ∀ sc ∈ st2.scopes,
      dictGet sc.globals "_proxy" = some GVal.pyNone ∧
      (∀ a ∈ st.attr_names, dictGet sc.globals a = none) ∧
      (∀ f args kw, isProxyNotEstablished (facadeCall sc f args kw) = false ∧
        (facadeCall sc f args kw = FacadeResult.attrErrNone f.meth ∨
          ∃ e, facadeCall sc f args kw = FacadeResult.typeErr e)) := by
  unfold install_proxy at hinst
  cases hmi : mapExcept (installScope cls inst st.attr_names) st.scopes with
  | error e => rw [hmi] at hinst; cases hinst
  | ok scs1 =>
    rw [hmi] at hinst
    injection hinst with h1
    subst h1
    unfold remove_proxy at hrem
    cases hmr : mapExcept (removeScope st.attr_names) scs1 with
    | error e => rw [hmr] at hrem; cases hrem
    | ok scs2 =>
      rw [hmr] at hrem
      injection hrem with h2
      subst h2
      refine ⟨rfl, ?_⟩
      intro sc hsc
      obtain ⟨sc1, hsc1, hrel⟩ := mapExcept_mem _ scs1 scs2 hmr sc hsc
      unfold removeScope at hrel
      cases hdel : pyDelList st.attr_names
          (dictSet sc1.globals "_proxy" GVal.pyNone) with
      | error e => rw [hdel] at hrel; cases hrel
      | ok g =>
        rw [hdel] at hrel
        injection hrel with h3
        subst h3
        obtain ⟨hd1, hd2⟩ := pyDelList_spec st.attr_names _ g hdel
        have hpn : dictGet (Scope.mk g sc1.locals).globals "_proxy"
            = some GVal.pyNone := by
          show dictGet g "_proxy" = some GVal.pyNone
          rw [hd2 "_proxy" hp]
          exact dictGet_set_self sc1.globals "_proxy" GVal.pyNone
        refine ⟨hpn, fun a ha => hd1 a ha, ?_⟩
        intro f args kw
        exact facade_on_none (Scope.mk g sc1.locals) f args kw hpn

/-- Witness for C4 (amended) at the concrete detach scenario: the scope left
by the detach has `None` in its `_proxy` slot. -/
theorem claim_detach_clears_scope_witness :
    dictGet (Scope.mk [("_proxy", (GVal.pyNone : GVal Nat))] [("m", facade4)]).globals
        "_proxy" = some GVal.pyNone :=
  (((claim_detach_clears_scope cls4 st4a st4b st4c [] (by decide) rfl rfl).2
      (Scope.mk [("_proxy", GVal.pyNone)] [("m", facade4)]) (by decide)).1)

/-- Counterexample for C4 as stated: after registering `cls4`, attaching an
instance and detaching it, calling the facade for `m` fails with the
AttributeError on the `None` proxy slot, not with the proxy-not-established
error naming the class and the attribute. -/
theorem claim_detach_counterexample :
    install_proxy cls4 st4a ([] : Kw Nat) = Except.ok st4b ∧
    remove_proxy st4b = Except.ok st4c ∧
    facadeCall (Scope.mk [("_proxy", GVal.pyNone)] [("m", facade4)]) facade4 [] []
        = FacadeResult.attrErrNone "m" ∧
    isProxyNotEstablished
        (facadeCall (Scope.mk [("_proxy", GVal.pyNone)] [("m", facade4)]) facade4 [] [])
      = false :=
  ⟨rfl, rfl, rfl, rfl⟩

/-! #### Claim theorems: member addition re-propagates (C5) -/

theorem addPA_meth {V : Type} (cls : Cls V) (key : String) (sc : Scope V)
    (an : List String) (spec : PySpec V) (ts : List (String × String))
    (hpub : startsUnderscore key = false)
    (hmem : dictGet cls.members key = some (PyMember.meth spec ts)) :
    addProxiedAttribute cls key sc an
      = (Scope.mk sc.globals (dictSet sc.locals key (Facade.mk cls.name key (popSelf spec) ts)), an) := by
  simp [addProxiedAttribute, hpub, hmem]

theorem addPA_attr {V : Type} (cls : Cls V) (key : String) (sc : Scope V)
    (an : List String) (v : V) (hpub : startsUnderscore key = false)
    (hmem : dictGet cls.members key = some (PyMember.attrM v)) :
    addProxiedAttribute cls key sc an = (sc, setAdd an key) := by
  simp [addProxiedAttribute, hpub, hmem]

theorem updateFold_meth {V : Type} (cls : Cls V) (key : String) (spec : PySpec V)
    (ts : List (String × String)) (hpub : startsUnderscore key = false)
    (hmem : dictGet cls.members key = some (PyMember.meth spec ts)) :
    ∀ (scopes : List (Scope V)) (an : List String),
      updateScopesFold cls key scopes an
        = (scopes.map (fun sc => Scope.mk sc.globals (dictSet sc.locals key (Facade.mk cls.name key (popSelf spec) ts))), an) := by
  intro scopes
  induction scopes with
  | nil => intro an; rfl
  | cons sc rest ih =>
    intro an
    unfold updateScopesFold
    rw [addPA_meth cls key sc an spec ts hpub hmem, ih an]
    rfl

theorem setAdd_mem (an : List String) (a : String) : a ∈ setAdd an a := by
  unfold setAdd
  by_cases h : a ∈ an
  · rw [if_pos h]; exact h
  · rw [if_neg h]; exact List.mem_append_right an (List.mem_singleton.mpr rfl)

theorem setAdd_idem (an : List String) (a : String) (h : a ∈ an) :
    setAdd an a = an := by
  unfold setAdd; rw [if_pos h]

theorem updateFold_attr {V : Type} (cls : Cls V) (key : String) (v : V)
    (hpub : startsUnderscore key = false)
    (hmem : dictGet cls.members key = some (PyMember.attrM v)) :
    ∀ (scopes : List (Scope V)) (an : List String), scopes ≠ [] →
      updateScopesFold cls key scopes an = (scopes, setAdd an key) := by
  intro scopes
  induction scopes with
  | nil => intro an h; exact absurd rfl h
  | cons sc rest ih =>
    intro an _
    unfold updateScopesFold
    rw [addPA_attr cls key sc an v hpub hmem]
    cases hrest : rest with
    | nil => simp [updateScopesFold]
    | cons sc2 rest2 =>
      rw [← hrest, ih (setAdd an key) (by rw [hrest]; exact List.cons_ne_nil sc2 rest2)]
      rw [setAdd_idem (setAdd an key) key (setAdd_mem an key)]

/-- C5: assigning a new public member to the class (the
`_ModuleClsMeta.__setattr__` hook, i.e. the member-added notification)
re-propagates the binding into every already registered scope without a
further `create_module_class_proxy` call: a callable member installs its
facade into the `locals_` of every registered scope, and a non-callable
member enters the shared `attr_names`, so that any following
`_install_proxy` binds it in the `globals_` of every scope. -/
theorem claim_member_added_propagates {V : Type} (cls : Cls V) (st : ProxyState V)
    (key : String) (spec : PySpec V) (ts : List (String × String)) (v : V)
    (hpub : startsUnderscore key = false) :
    ((clsSetattr cls key (PyMember.meth spec ts) st).2.scopes
        = st.scopes.map (fun sc => Scope.mk sc.globals (dictSet sc.locals key (Facade.mk cls.name key (popSelf spec) ts))) ∧
      ∀ sc2 ∈ (clsSetattr cls key (PyMember.meth spec ts) st).2.scopes,
        dictGet sc2.locals key = some (Facade.mk cls.name key (popSelf spec) ts)) ∧
    (st.scopes ≠ [] →
      key ∈ (clsSetattr cls key (PyMember.attrM v) st).2.attr_names ∧
      ∀ inst st3,
        install_proxy (clsSetattr cls key (PyMember.attrM v) st).1
            (clsSetattr cls key (PyMember.attrM v) st).2 inst = Except.ok st3 →
        ∀ sc3 ∈ st3.scopes, ∃ w, dictGet sc3.globals key = some (GVal.pyVal w)) := by
  have hmm : dictGet (dictSet cls.members key (PyMember.meth spec ts)) key
      = some (PyMember.meth spec ts) := dictGet_set_self cls.members key _
  have hma : dictGet (dictSet cls.members key (PyMember.attrM v)) key
      = some (PyMember.attrM v) := dictGet_set_self cls.members key _
  have hfold := updateFold_meth (Cls.mk cls.name (dictSet cls.members key
    (PyMember.meth spec ts))) key spec ts hpub hmm st.scopes st.attr_names
  constructor
  · constructor
    · show (updateScopesFold (Cls.mk cls.name (dictSet cls.members key
          (PyMember.meth spec ts))) key st.scopes st.attr_names).1 = _
      rw [hfold]
    · intro sc2 hsc2
      have hsc2m : sc2 ∈ st.scopes.map (fun sc => { sc with
          locals := dictSet sc.locals key
            (Facade.mk cls.name key (popSelf spec) ts) }) := by
        have hh : (clsSetattr cls key (PyMember.meth spec ts) st).2.scopes
            = st.scopes.map (fun sc => Scope.mk sc.globals (dictSet sc.locals key (Facade.mk cls.name key (popSelf spec) ts))) := by
          show (updateScopesFold (Cls.mk cls.name (dictSet cls.members key
              (PyMember.meth spec ts))) key st.scopes st.attr_names).1 = _
          rw [hfold]
        rw [← hh]
        exact hsc2
      rcases List.mem_map.mp hsc2m with ⟨sc, hsc, hsc2eq⟩
      rw [← hsc2eq]
      exact dictGet_set_self sc.locals key _
  · intro hne
    have hfolda := updateFold_attr (Cls.mk cls.name (dictSet cls.members key
      (PyMember.attrM v))) key v hpub hma st.scopes st.attr_names hne
    constructor
    · show key ∈ (updateScopesFold (Cls.mk cls.name (dictSet cls.members key
          (PyMember.attrM v))) key st.scopes st.attr_names).2
      rw [hfolda]
      exact setAdd_mem st.attr_names key
    · intro inst st3 hinst sc3 hsc3
      unfold install_proxy at hinst
      cases hmi : mapExcept (installScope (clsSetattr cls key (PyMember.attrM v) st).1
          inst (clsSetattr cls key (PyMember.attrM v) st).2.attr_names)
          (clsSetattr cls key (PyMember.attrM v) st).2.scopes with
      | error e => rw [hmi] at hinst; cases hinst
      | ok scs3 =>
        rw [hmi] at hinst
        injection hinst with h1
        subst h1
        obtain ⟨sc0, hsc0, hrel⟩ := mapExcept_mem _ _ scs3 hmi sc3 hsc3
        unfold installScope at hrel
        cases hia : installAttrs (clsSetattr cls key (PyMember.attrM v) st).1 inst
            (clsSetattr cls key (PyMember.attrM v) st).2.attr_names
            (dictSet sc0.globals "_proxy" (GVal.pyInst inst)) with
        | error e => rw [hia] at hrel; cases hrel
        | ok g =>
          rw [hia] at hrel
          injection hrel with h2
          subst h2
          have hkeymem : key ∈ (clsSetattr cls key (PyMember.attrM v) st).2.attr_names := by
            show key ∈ (updateScopesFold (Cls.mk cls.name (dictSet cls.members key
                (PyMember.attrM v))) key st.scopes st.attr_names).2
            rw [hfolda]
            exact setAdd_mem st.attr_names key
          exact installAttrs_mem _ inst _ _ g hia key hkeymem

/-- Witness for C5 at a concrete input: adding public method `foo` to a class
registered in two scopes installs the facade into (in particular) the first
scope; no new registration call happens. -/
theorem claim_member_added_propagates_witness :
    dictGet (Scope.mk ([] : PyDict String (GVal Nat))
        [("foo", Facade.mk "Operations" "foo"
          (popSelf (PySpec.mk ["self", "a"] false false [])) [])]).locals "foo"
      = some (Facade.mk "Operations" "foo"
          (popSelf (PySpec.mk ["self", "a"] false false [])) []) :=
  ((claim_member_added_propagates cls5 st5 "foo"
      (PySpec.mk ["self", "a"] false false []) [] 0 (by decide)).1.2
    (Scope.mk [] [("foo", Facade.mk "Operations" "foo"
      (popSelf (PySpec.mk ["self", "a"] false false [])) [])]) (by decide))

/-! #### Lemmas about CPython call binding and the forwarded call -/

theorem fillSlots_cons_pos {V : Type} (kn : Kw V) (s : String × Option V)
    (slots : List (String × Option V)) (v : V) (vs : List V) :
    fillSlots kn (s :: slots) (v :: vs)
      = (fillSlots kn slots vs).map (fun t => v :: t) := by
  rcases s with ⟨nm, dflt⟩
  rfl

theorem fillSlots_cons_kw {V : Type} (kn : Kw V) (nm : String) (dflt : Option V)
    (slots : List (String × Option V)) :
    fillSlots kn ((nm, dflt) :: slots) []
      = match dictGet kn nm with
        | some v => (fillSlots kn slots []).map (fun t => v :: t)
        | none =>
          match dflt with
          | some v => (fillSlots kn slots []).map (fun t => v :: t)
          | none => Except.error ("TypeError: missing required argument " ++ nm) := rfl

theorem fillSlots_length {V : Type} (kn : Kw V) :
    ∀ (slots : List (String × Option V)) (vs named : List V),
      fillSlots kn slots vs = Except.ok named → named.length = slots.length := by
  intro slots
  induction slots with
  | nil => intro vs named h; injection h with h1; subst h1; rfl
  | cons s slots ih =>
    intro vs named h
    cases vs with
    | cons v vs2 =>
      rw [fillSlots_cons_pos] at h
      cases hr : fillSlots kn slots vs2 with
      | error e => rw [hr] at h; cases h
      | ok t =>
        rw [hr] at h
        injection h with h1
        subst h1
        simp [ih vs2 t hr]
    | nil =>
      rcases s with ⟨nm, dflt⟩
      rw [fillSlots_cons_kw] at h
      cases hg : dictGet kn nm with
      | some v =>
        rw [hg] at h
        cases hr : fillSlots kn slots [] with
        | error e => rw [hr] at h; cases h
        | ok t =>
          rw [hr] at h
          injection h with h1
          subst h1
          simp [ih [] t hr]
      | none =>
        rw [hg] at h
        cases dflt with
        | some v =>
          cases hr : fillSlots kn slots [] with
          | error e => rw [hr] at h; cases h
          | ok t =>
            rw [hr] at h
            injection h with h1
            subst h1
            simp [ih [] t hr]
        | none => cases h

theorem fillSlots_all_pos {V : Type} (kn : Kw V) :
    ∀ (slots : List (String × Option V)) (vs : List V),
      slots.length ≤ vs.length →
      fillSlots kn slots vs = Except.ok (vs.take slots.length) := by
  intro slots
  induction slots with
  | nil => intro vs _; rfl
  | cons s slots ih =>
    intro vs hle
    cases vs with
    | nil => simp at hle
    | cons v vs2 =>
      rw [fillSlots_cons_pos, ih vs2 (Nat.le_of_succ_le_succ hle)]
      rfl

theorem fillSlots_append {V : Type} (kn : Kw V) :
    ∀ (s1 s2 : List (String × Option V)) (vs : List V),
      vs.length = s1.length →
      fillSlots kn (s1 ++ s2) vs
        = (fillSlots kn s2 []).map (fun t => vs ++ t) := by
  intro s1
  induction s1 with
  | nil =>
    intro s2 vs hlen
    have hnil : vs = [] := List.length_eq_zero.mp hlen
    subst hnil
    cases hr : fillSlots kn s2 [] with
    | error e => show fillSlots kn s2 [] = _; rw [hr]; rfl
    | ok t => show fillSlots kn s2 [] = _; rw [hr]; rfl
  | cons s s1 ih =>
    intro s2 vs hlen
    cases vs with
    | nil => simp at hlen
    | cons v vs2 =>
      rw [List.cons_append, fillSlots_cons_pos, ih s2 vs2 (by simpa using hlen)]
      cases fillSlots kn s2 [] with
      | error e => rfl
      | ok t => rfl

theorem dictGet_zip_self {V : Type} :
    ∀ (names : List String) (vals : List V), names.Nodup →
      ∀ i (hi : i < names.length) (hv : i < vals.length),
        dictGet (names.zip vals) (names.get ⟨i, hi⟩) = some (vals.get ⟨i, hv⟩) := by
  intro names
  induction names with
  | nil => intro vals _ i hi _; exact absurd hi (Nat.not_lt_zero i)
  | cons nm names ih =>
    intro vals hnd i hi hv
    cases vals with
    | nil => exact absurd hv (Nat.not_lt_zero i)
    | cons v vals =>
      have hnd2 := List.nodup_cons.mp hnd
      cases i with
      | zero => simp [dictGet]
      | succ j =>
        have hj : j < names.length := Nat.lt_of_succ_lt_succ hi
        have hne : names.get ⟨j, hj⟩ ≠ nm := by
          intro hh
          exact hnd2.1 (hh ▸ List.get_mem names j hj)
        show dictGet ((nm, v) :: names.zip vals) (names.get ⟨j, hj⟩) = _
        simp only [dictGet, if_neg hne]
        exact ih vals hnd2.2 j hj (Nat.lt_of_succ_lt_succ hv)

theorem fillSlots_from_kw {V : Type} :
    ∀ (names : List String) (vals : List V) (dflts : List (Option V)) (kn : Kw V),
      vals.length = names.length → dflts.length = names.length →
      (∀ i (hi : i < names.length) (hv : i < vals.length),
        dictGet kn (names.get ⟨i, hi⟩) = some (vals.get ⟨i, hv⟩)) →
      fillSlots kn (names.zip dflts) [] = Except.ok vals := by
  intro names
  induction names with
  | nil =>
    intro vals dflts kn hv _ _
    have hnil : vals = [] := List.length_eq_zero.mp hv
    subst hnil
    rfl
  | cons nm names ih =>
    intro vals dflts kn hv hd hget
    cases vals with
    | nil => simp at hv
    | cons v vals =>
      cases dflts with
      | nil => simp at hd
      | cons df dflts =>
        have h0 : dictGet kn nm = some v := hget 0 (by simp) (by simp)
        have hrec := ih vals dflts kn (by simpa using hv) (by simpa using hd)
          (fun i hi hv2 => hget (i + 1) (Nat.succ_lt_succ hi) (Nat.succ_lt_succ hv2))
        calc fillSlots kn ((nm, df) :: names.zip dflts) []
            = (fillSlots kn (names.zip dflts) []).map (fun t => v :: t) := by
              rw [fillSlots_cons_kw, h0]
          _ = Except.ok (v :: vals) := by rw [hrec]; rfl

theorem kwSplit_extra {V : Type} (argNames posAssigned : List String) (hasKw : Bool) :
    ∀ (kw kn ke : Kw V),
      kwSplit argNames posAssigned hasKw kw = Except.ok (kn, ke) →
      (∀ p ∈ ke, p.1 ∉ argNames ∧ hasKw = true) ∧
      (∀ p ∈ kn, p.1 ∈ argNames ∧ p.1 ∉ posAssigned) := by
  intro kw
  induction kw with
  | nil =>
    intro kn ke h
    injection h with h1
    cases h1
    exact ⟨fun p hp => absurd hp (List.not_mem_nil p),
      fun p hp => absurd hp (List.not_mem_nil p)⟩
  | cons e kw ih =>
    intro kn ke h
    rcases e with ⟨k, v⟩
    unfold kwSplit at h
    by_cases h1 : k ∈ argNames
    · rw [if_pos h1] at h
      by_cases h2 : k ∈ posAssigned
      · rw [if_pos h2] at h; cases h
      · rw [if_neg h2] at h
        cases hr : kwSplit argNames posAssigned hasKw kw with
        | error e2 => rw [hr] at h; cases h
        | ok p =>
          rw [hr] at h
          injection h with h3
          cases h3
          obtain ⟨he, hn⟩ := ih p.1 p.2 (by rw [hr])
          constructor
          · exact he
          · intro q hq
            rcases List.mem_cons.mp hq with hq1 | hq2
            · subst hq1; exact ⟨h1, h2⟩
            · exact hn q hq2
    · rw [if_neg h1] at h
      by_cases h3 : hasKw = true
      · rw [if_pos h3] at h
        cases hr : kwSplit argNames posAssigned hasKw kw with
        | error e2 => rw [hr] at h; cases h
        | ok p =>
          rw [hr] at h
          injection h with h4
          cases h4
          obtain ⟨he, hn⟩ := ih p.1 p.2 (by rw [hr])
          constructor
          · intro q hq
            rcases List.mem_cons.mp hq with hq1 | hq2
            · subst hq1; exact ⟨h1, h3⟩
            · exact he q hq2
          · exact hn
      · rw [if_neg h3] at h; cases h

theorem kwSplit_all_extra {V : Type} (argNames posAssigned : List String)
    (hasKw : Bool) :
    ∀ (l2 : Kw V), (∀ p ∈ l2, p.1 ∉ argNames) → (l2 = [] ∨ hasKw = true) →
      kwSplit argNames posAssigned hasKw l2 = Except.ok ([], l2) := by
  intro l2
  induction l2 with
  | nil => intro _ _; rfl
  | cons e l2 ih =>
    intro h2 h3
    rcases e with ⟨k, v⟩
    have hk := h2 (k, v) (List.mem_cons_self _ _)
    have hkw : hasKw = true := by
      rcases h3 with h3 | h3
      · exact absurd h3 (List.cons_ne_nil _ _)
      · exact h3
    unfold kwSplit
    rw [if_neg hk, if_pos hkw,
      ih (fun p hp => h2 p (List.mem_cons_of_mem _ hp)) (Or.inr hkw)]

theorem kwSplit_all_named {V : Type} (argNames posAssigned : List String)
    (hasKw : Bool) :
    ∀ (l1 l2 : Kw V),
      (∀ p ∈ l1, p.1 ∈ argNames ∧ p.1 ∉ posAssigned) →
      (∀ p ∈ l2, p.1 ∉ argNames) →
      (l2 = [] ∨ hasKw = true) →
      kwSplit argNames posAssigned hasKw (l1 ++ l2) = Except.ok (l1, l2) := by
  intro l1
  induction l1 with
  | nil =>
    intro l2 _ h2 h3
    show kwSplit argNames posAssigned hasKw l2 = Except.ok ([], l2)
    exact kwSplit_all_extra argNames posAssigned hasKw l2 h2 h3
  | cons e l1 ih =>
    intro l2 h1 h2 h3
    rcases e with ⟨k, v⟩
    have hk := h1 (k, v) (List.mem_cons_self _ _)
    show kwSplit argNames posAssigned hasKw ((k, v) :: (l1 ++ l2)) = _
    unfold kwSplit
    rw [if_pos hk.1, if_neg hk.2,
      ih l2 (fun p hp => h1 p (List.mem_cons_of_mem _ hp)) h2 h3]

theorem argSlots_length {V : Type} (spec : PySpec V)
    (hdlen : spec.defaults.length ≤ spec.args.length) :
    (argSlots spec).length = spec.args.length := by
  unfold argSlots
  rw [List.length_append, List.length_map, List.length_take, List.length_zip,
    List.length_drop, List.length_map]
  omega

theorem bindCall_eq {V : Type} (spec : PySpec V) (args : List V) (kw : Kw V)
    (kn ke : Kw V) (named : List V)
    (hg : ¬ (spec.args.length < args.length ∧ spec.varargs = false))
    (hks : kwSplit spec.args (spec.args.take (min args.length spec.args.length))
      spec.keywords kw = Except.ok (kn, ke))
    (hfs : fillSlots kn (argSlots spec) args = Except.ok named) :
    bindCall spec args kw = Except.ok (named, args.drop spec.args.length, ke) := by
  unfold bindCall
  rw [if_neg hg, hks]
  show (match fillSlots kn (argSlots spec) args with
    | Except.error e => Except.error e
    | Except.ok named2 => Except.ok (named2, args.drop spec.args.length, ke)) = _
  rw [hfs]

theorem bindCall_rebind {V : Type} (spec : PySpec V) (args : List V) (kw : Kw V)
    (env : List V × List V × Kw V)
    (hnd : spec.args.Nodup) (hdlen : spec.defaults.length ≤ spec.args.length)
    (hsafe : spec.defaults = [] ∨ spec.varargs = false)
    (hok : bindCall spec args kw = Except.ok env) :
    bindCall spec (fwdPos spec env) (fwdKw spec env) = Except.ok env := by
  unfold bindCall at hok
  by_cases hguard : spec.args.length < args.length ∧ spec.varargs = false
  · rw [if_pos hguard] at hok; cases hok
  · rw [if_neg hguard] at hok
    cases hks : kwSplit spec.args (spec.args.take (min args.length spec.args.length))
        spec.keywords kw with
    | error e => rw [hks] at hok; cases hok
    | ok p =>
      rw [hks] at hok
      rcases p with ⟨kwNamed, extraKw⟩
      have hok2 : (match fillSlots kwNamed (argSlots spec) args with
          | Except.error e => Except.error e
          | Except.ok named2 =>
              Except.ok (named2, args.drop spec.args.length, extraKw))
          = Except.ok env := hok
      cases hfs : fillSlots kwNamed (argSlots spec) args with
      | error e => rw [hfs] at hok2; cases hok2
      | ok named =>
        rw [hfs] at hok2
        injection hok2 with h1
        subst h1
        have hlen : named.length = spec.args.length := by
          rw [fillSlots_length kwNamed (argSlots spec) args named hfs]
          exact argSlots_length spec hdlen
        have hextra := (kwSplit_extra spec.args _ spec.keywords kw kwNamed extraKw hks).1
        have hexkw : ∀ q ∈ extraKw, q.1 ∉ spec.args := fun q hq => (hextra q hq).1
        have hexor : extraKw = [] ∨ spec.keywords = true := by
          cases hek : extraKw with
          | nil => exact Or.inl rfl
          | cons q qs =>
            exact Or.inr ((hextra q (by rw [hek]; exact List.mem_cons_self q qs)).2)
        rcases hsafe with hdef | hvar
        · -- no defaults: forwarding is purely positional plus the extra keywords
          have hd0 : spec.defaults.length = 0 := by rw [hdef]; rfl
          have hfp : fwdPos spec (named, args.drop spec.args.length, extraKw)
              = named ++ args.drop spec.args.length := by
            show named.take (spec.args.length - spec.defaults.length)
                ++ args.drop spec.args.length = _
            rw [hd0, Nat.sub_zero, ← hlen, List.take_length]
          have hfk : fwdKw spec (named, args.drop spec.args.length, extraKw)
              = extraKw := by
            show (spec.args.drop (spec.args.length - spec.defaults.length)).zip
                (named.drop (spec.args.length - spec.defaults.length))
                ++ extraKw = extraKw
            rw [hd0, Nat.sub_zero, List.drop_length]
            rfl
          rw [hfp, hfk]
          have hg2 : ¬ (spec.args.length < (named ++ args.drop spec.args.length).length
              ∧ spec.varargs = false) := by
            rintro ⟨hl, hv⟩
            have h3 : ¬ spec.args.length < args.length := fun hc => hguard ⟨hc, hv⟩
            rw [List.length_append, hlen, List.length_drop] at hl
            omega
          have hsplit2 : kwSplit spec.args
              (spec.args.take (min (named ++ args.drop spec.args.length).length
                spec.args.length)) spec.keywords extraKw
              = Except.ok ([], extraKw) :=
            kwSplit_all_extra spec.args _ spec.keywords extraKw hexkw hexor
          have hle2 : (argSlots spec).length
              ≤ (named ++ args.drop spec.args.length).length := by
            rw [argSlots_length spec hdlen, List.length_append, hlen]
            omega
          have hfill2 : fillSlots ([] : Kw V) (argSlots spec)
              (named ++ args.drop spec.args.length) = Except.ok named := by
            rw [fillSlots_all_pos ([] : Kw V) (argSlots spec) _ hle2,
              argSlots_length spec hdlen, List.take_left' hlen]
          rw [bindCall_eq spec (named ++ args.drop spec.args.length) extraKw []
            extraKw named hg2 hsplit2 hfill2, List.drop_left' hlen]
        · -- no *args: forwarding passes the defaulted parameters as keywords
          have hlea : args.length ≤ spec.args.length := by
            by_contra hc
            exact hguard ⟨Nat.lt_of_not_le hc, hvar⟩
          have hdropnil : args.drop spec.args.length = [] :=
            List.drop_eq_nil_of_le hlea
          have hndle : spec.args.length - spec.defaults.length ≤ spec.args.length :=
            Nat.sub_le _ _
          have hfp : fwdPos spec (named, args.drop spec.args.length, extraKw)
              = named.take (spec.args.length - spec.defaults.length) := by
            show named.take (spec.args.length - spec.defaults.length)
                ++ args.drop spec.args.length = _
            rw [hdropnil]
            exact List.append_nil _
          have hfk : fwdKw spec (named, args.drop spec.args.length, extraKw)
              = (spec.args.drop (spec.args.length - spec.defaults.length)).zip
                  (named.drop (spec.args.length - spec.defaults.length))
                ++ extraKw := rfl
          rw [hfp, hfk]
          have htklen : (named.take (spec.args.length - spec.defaults.length)).length
              = spec.args.length - spec.defaults.length := by
            rw [List.length_take, hlen]
            omega
          have hg2 : ¬ (spec.args.length
              < (named.take (spec.args.length - spec.defaults.length)).length
              ∧ spec.varargs = false) := by
            rintro ⟨hl, _⟩
            rw [htklen] at hl
            omega
          have hposeq : spec.args.take
              (min (named.take (spec.args.length - spec.defaults.length)).length
                spec.args.length)
              = spec.args.take (spec.args.length - spec.defaults.length) := by
            rw [htklen, Nat.min_eq_left hndle]
          have hzip1 : ∀ q ∈ (spec.args.drop
                (spec.args.length - spec.defaults.length)).zip
              (named.drop (spec.args.length - spec.defaults.length)),
              q.1 ∈ spec.args
                ∧ q.1 ∉ spec.args.take (spec.args.length - spec.defaults.length) := by
            intro q hq
            have hq1 := (List.of_mem_zip hq).1
            constructor
            · exact List.mem_of_mem_drop hq1
            · intro hq2
              exact (List.disjoint_take_drop hnd
                (Nat.le_refl (spec.args.length - spec.defaults.length))) hq2 hq1
          have hsplit2 : kwSplit spec.args
              (spec.args.take (spec.args.length - spec.defaults.length)) spec.keywords
              ((spec.args.drop (spec.args.length - spec.defaults.length)).zip
                  (named.drop (spec.args.length - spec.defaults.length)) ++ extraKw)
              = Except.ok ((spec.args.drop (spec.args.length - spec.defaults.length)).zip
                  (named.drop (spec.args.length - spec.defaults.length)), extraKw) :=
            kwSplit_all_named spec.args _ spec.keywords _ extraKw hzip1 hexkw hexor
          have hsplit2m : kwSplit spec.args
              (spec.args.take
                (min (named.take (spec.args.length - spec.defaults.length)).length
                  spec.args.length)) spec.keywords
              ((spec.args.drop (spec.args.length - spec.defaults.length)).zip
                  (named.drop (spec.args.length - spec.defaults.length)) ++ extraKw)
              = Except.ok ((spec.args.drop (spec.args.length - spec.defaults.length)).zip
                  (named.drop (spec.args.length - spec.defaults.length)), extraKw) := by
            rw [hposeq]
            exact hsplit2
          have hzipkn := dictGet_zip_self
            (spec.args.drop (spec.args.length - spec.defaults.length))
            (named.drop (spec.args.length - spec.defaults.length))
            (List.Nodup.sublist
              (List.drop_sublist (spec.args.length - spec.defaults.length) spec.args) hnd)
          have hfrom : fillSlots
              ((spec.args.drop (spec.args.length - spec.defaults.length)).zip
                (named.drop (spec.args.length - spec.defaults.length)))
              ((spec.args.drop (spec.args.length - spec.defaults.length)).zip
                (spec.defaults.map some)) []
              = Except.ok (named.drop (spec.args.length - spec.defaults.length)) := by
            apply fillSlots_from_kw
            · rw [List.length_drop, List.length_drop, hlen]
            · rw [List.length_map, List.length_drop]
              omega
            · exact hzipkn
          have hs1len : (((spec.args.take (spec.args.length - spec.defaults.length)).map
              (fun s => (s, (none : Option V))))).length
              = spec.args.length - spec.defaults.length := by
            rw [List.length_map, List.length_take]
            exact Nat.min_eq_left hndle
          have happend : fillSlots
              ((spec.args.drop (spec.args.length - spec.defaults.length)).zip
                (named.drop (spec.args.length - spec.defaults.length)))
              (argSlots spec) (named.take (spec.args.length - spec.defaults.length))
              = (fillSlots
                  ((spec.args.drop (spec.args.length - spec.defaults.length)).zip
                    (named.drop (spec.args.length - spec.defaults.length)))
                  ((spec.args.drop (spec.args.length - spec.defaults.length)).zip
                    (spec.defaults.map some)) []).map
                  (fun t => named.take (spec.args.length - spec.defaults.length) ++ t) := by
            show fillSlots _
                (((spec.args.take (spec.args.length - spec.defaults.length)).map
                    (fun s => (s, (none : Option V))))
                  ++ (spec.args.drop (spec.args.length - spec.defaults.length)).zip
                      (spec.defaults.map some))
                (named.take (spec.args.length - spec.defaults.length)) = _
            apply fillSlots_append
            rw [htklen, hs1len]
          have hfill2 : fillSlots
              ((spec.args.drop (spec.args.length - spec.defaults.length)).zip
                (named.drop (spec.args.length - spec.defaults.length)))
              (argSlots spec) (named.take (spec.args.length - spec.defaults.length))
              = Except.ok named := by
            rw [happend, hfrom]
            show Except.ok (named.take (spec.args.length - spec.defaults.length)
                ++ named.drop (spec.args.length - spec.defaults.length)) = _
            rw [List.take_append_drop]
          rw [bindCall_eq spec (named.take (spec.args.length - spec.defaults.length))
            ((spec.args.drop (spec.args.length - spec.defaults.length)).zip
                (named.drop (spec.args.length - spec.defaults.length)) ++ extraKw)
            ((spec.args.drop (spec.args.length - spec.defaults.length)).zip
                (named.drop (spec.args.length - spec.defaults.length))) extraKw named
            hg2 hsplit2m hfill2, hdropnil,
            List.drop_eq_nil_of_le (by rw [htklen]; omega)]

/-! #### Claim theorems: facade calling convention (C9) -/

/-- C9 (amended): a facade without translation rules declares exactly the
parameters of the method (minus `self`) and, provided the method does not
combine defaulted parameters with a `*args` parameter, calling it produces
exactly the outcome of the direct call on the active instance -- the same
binding of positionals, keywords, defaults and variadics, and the same
TypeError on a malformed call. -/
theorem claim_facade_matches_direct {V : Type} (sc : Scope V) (f : Facade V)
    (inst : Kw V) (args : List V) (kw : Kw V)
    (hproxy : dictGet sc.globals "_proxy" = some (GVal.pyInst inst))
    (htrans : f.translations = [])
    (hnd : f.spec.args.Nodup)
    (hdlen : f.spec.defaults.length ≤ f.spec.args.length)
    (hsafe : f.spec.defaults = [] ∨ f.spec.varargs = false) :
    facadeCall sc f args kw = directCall inst f.meth f.spec args kw := by
  unfold facadeCall directCall
  rw [htrans]
  cases hb : bindCall f.spec args kw with
  | error e => rfl
  | ok env =>
    rw [hproxy]
    show (match bindCall f.spec (fwdPos f.spec env) (fwdKw f.spec env) with
      | Except.error e => FacadeResult.typeErr e
      | Except.ok env2 => FacadeResult.invoke inst f.meth env2)
      = FacadeResult.invoke inst f.meth env
    rw [bindCall_rebind f.spec args kw env hnd hdlen hsafe hb]

/-- Witness for C9 (amended) at a concrete input: a method with a defaulted
parameter and a `**kwargs` parameter (no `*args`) called through the facade
produces the direct invocation. -/
theorem claim_facade_matches_direct_witness :
    facadeCall (Scope.mk [("_proxy", GVal.pyInst ([] : Kw Nat))] [])
        (Facade.mk "Operations" "m" (PySpec.mk ["a", "b"] false true [7]) [])
        [1] [("z", 9)]
      = directCall ([] : Kw Nat) "m" (PySpec.mk ["a", "b"] false true [7])
          [1] [("z", 9)] :=
  claim_facade_matches_direct _ _ _ _ _ rfl rfl (by decide) (by decide) (Or.inr rfl)

/-- Counterexample for C9 as stated: for the method `m(self, a, b=2, *c)` --
defaulted parameter together with `*args` -- the facade call `m(1, 5, 9)`
fails with a `got multiple values` TypeError, while the direct call binds
`a=1, b=5, c=(9,)`; the facade does not reproduce the calling convention of
the method. -/
theorem claim_facade_convention_counterexample :
    facadeCall scope9 facade9 [1, 5, 9] []
        = FacadeResult.typeErr "TypeError: got multiple values for keyword argument b" ∧
    directCall inst9 "m" spec9 [1, 5, 9] []
        = FacadeResult.invoke inst9 "m" ([1, 5], [9], []) ∧
    facadeCall scope9 facade9 [1, 5, 9] [] ≠ directCall inst9 "m" spec9 [1, 5, 9] [] :=
  ⟨rfl, rfl, by decide⟩

end Alembic
